import Mathlib

/-!
Verification development for the openrouter-inference-stats repository.

The core of the repository is translated here as a shallow embedding:

* `src/scraper.py`   — `scrape_rankings_history`, `_extract_daily_data`,
  `sum_daily_window` (weekly-chart extraction, daily-analytics extraction
  and the sliding-window aggregator);
* `src/calculator.py` — `calculate_revenue`, `_find_pricing`,
  `_slug_similarity` (revenue reconciliation);
* `src/api.py`        — `_parse_price` and the per-entry price-record
  construction of `fetch_model_pricing`.

Modelling conventions, stated once:

* Python `float` prices and ratios are modelled as exact rationals `ℚ`;
  `round(x, n)` is modelled as exact decimal rounding half-to-even (the
  rounding mode Python documents).  Binary floating-point representation
  error is not modelled.
* Calendar dates handled by `sum_daily_window` are modelled as integer day
  numbers `ℤ`: `datetime.strptime`/`strftime` put valid ISO dates in an
  order-preserving bijection with `ℤ`, and `timedelta(days=i)` subtraction
  becomes integer subtraction.  Dates recovered textually by the extractors
  are kept as the character strings the source recovers.
* Python dicts are modelled as insertion-ordered association lists:
  assignment to an existing key updates it in place, assignment to a fresh
  key appends; lookup returns the first (unique) matching key.
* Text is modelled as `List Char`; the regular-expression scans of the
  source are translated as explicit left-to-right scanners that advance by
  one character on a failed match attempt and continue after the matched
  span on success, which is exactly the semantics of `re.findall` /
  `re.finditer` for these patterns (each pattern here is deterministic:
  no choice point of the pattern admits more than one continuation).
-/

/-! ## Data model: daily analytics records and activity windows -/

/-- One day of analytics for one model
(`_extract_daily_data` value dict: prompt/completion/reasoning/cached/count). -/
structure DayRec where
  prompt : ℕ
  completion : ℕ
  reasoning : ℕ
  cached : ℕ
  count : ℕ
  deriving DecidableEq, Repr

/-- The all-zero daily record (fresh `daily_totals[date_str]` entry). -/
def zeroDay : DayRec := ⟨0, 0, 0, 0, 0⟩

/-- An activity window (`sum_daily_window` result dict). -/
structure Activity where
  prompt_tokens : ℕ
  completion_tokens : ℕ
  reasoning_tokens : ℕ
  cached_tokens : ℕ
  request_count : ℕ
  deriving DecidableEq, Repr

/-- The all-zero activity (`result` initialisation in `sum_daily_window`). -/
def zeroActivity : Activity := ⟨0, 0, 0, 0, 0⟩

/-- One iteration of the summing loop in `sum_daily_window`
(`result[...] += day[...]` for the five fields). -/
def addDay (a : Activity) (r : DayRec) : Activity :=
  ⟨a.prompt_tokens + r.prompt, a.completion_tokens + r.completion,
   a.reasoning_tokens + r.reasoning, a.cached_tokens + r.cached,
   a.request_count + r.count⟩

/-- Loop body of `sum_daily_window`: a date absent from `daily_data`
contributes nothing (`if d in daily_data`). -/
def sumStep (daily : ℤ → Option DayRec) (a : Activity) (d : ℤ) : Activity :=
  match daily d with
  | some r => addDay a r
  | none => a

/-- The `dates_to_sum` list of `sum_daily_window` (scraper.py lines 333-344):
candidates `end_date - i` for `i < days`, with the current day dropped when
`skip_partial` holds, and one extra earlier day appended when additionally
`end_date` itself is the current day and the list came up short.
`today` is the value the source reads from the ambient clock
(`datetime.utcnow()`), made an explicit parameter of the embedding. -/
def windowDates (end_date : ℤ) (days : ℕ) ( skip_partial : Bool) (today : ℤ) :
    List ℤ :=
  let dates0 := (List.range days).filterMap (fun (i : ℕ) =>
    if skip_partial = true ∧ end_date - (i : ℤ) = today then none
    else some (end_date - (i : ℤ)))
  if skip_partial = true ∧ end_date = today ∧ dates0.length < days then
    dates0 ++ [end_date - (days : ℤ)]
  else dates0

/-- `sum_daily_window` (scraper.py lines 304-355): sum the daily analytics
over the selected window of dates. -/
def sum_daily_window (daily : ℤ → Option DayRec) (end_date : ℤ) (days : ℕ)
    ( skip_partial : Bool) (today : ℤ) : Activity :=
  (windowDates end_date days skip_partial today).foldl (sumStep daily) zeroActivity

/-- Field value of a date's record, zero when the date is absent
(specification-side view of one date's contribution). -/
def dayVal (daily : ℤ → Option DayRec) (f : DayRec → ℕ) (d : ℤ) : ℕ :=
  match daily d with
  | some r => f r
  | none => 0

/-- Specification-side window sum: the field-wise sums of the records of an
explicit list of dates. -/
def windowActivity (daily : ℤ → Option DayRec) (ds : List ℤ) : Activity :=
  ⟨(ds.map (dayVal daily DayRec.prompt)).sum,
   (ds.map (dayVal daily DayRec.completion)).sum,
   (ds.map (dayVal daily DayRec.reasoning)).sum,
   (ds.map (dayVal daily DayRec.cached)).sum,
   (ds.map (dayVal daily DayRec.count)).sum⟩

/-- Concrete ten-day history used by witnesses: day `d` (for `1 ≤ d ≤ 10`)
carries `d` tokens in every field (the synthetic example of spec §8). -/
def dailyTen : ℤ → Option DayRec := fun d =>
  if 1 ≤ d ∧ d ≤ 10 then
    some ⟨d.toNat, d.toNat, d.toNat, d.toNat, d.toNat⟩
  else none

/-- Concrete history used by the C6 counterexample: day 5 carries 7 prompt
tokens, days 2-4 carry 1 prompt token each. -/
def dailyFive : ℤ → Option DayRec := fun d =>
  if d = 5 then some ⟨7, 0, 0, 0, 0⟩
  else if 2 ≤ d ∧ d ≤ 4 then some ⟨1, 0, 0, 0, 0⟩
  else none

/-! ## Price parsing and the price book (api.py) -/

/-- Digit run value (exact arbitrary-precision semantics of Python `int`). -/
def digitsVal (ds : List Char) : ℕ :=
  ds.foldl (fun n c => 10 * n + (c.toNat - 48)) 0

/-- Exact value of a finite decimal/scientific Python float literal, `none`
when the text is not such a literal.  This models CPython `float(str)` for
finite literals: surrounding whitespace, an optional sign, an integer part
and/or fractional part, and an optional exponent.  (`inf`/`nan` and digit
underscores are outside the rational model and never arise in the claims.) -/
def parsePyFloat (s : List Char) : Option ℚ :=
  let t := (((s.dropWhile Char.isWhitespace).reverse).dropWhile
    Char.isWhitespace).reverse
  let (sign, t1) : ℚ × List Char :=
    match t with
    | '-' :: r => (-1, r)
    | '+' :: r => (1, r)
    | _ => (1, t)
  let intPart := t1.takeWhile Char.isDigit
  let t2 := t1.dropWhile Char.isDigit
  let (fracPart, t3) : List Char × List Char :=
    match t2 with
    | '.' :: r => (r.takeWhile Char.isDigit, r.dropWhile Char.isDigit)
    | _ => ([], t2)
  let hasDot : Bool := match t2 with | '.' :: _ => true | _ => false
  if intPart = [] ∧ fracPart = [] then none
  else
    let mantissa : ℚ :=
      (digitsVal intPart : ℚ) + (digitsVal fracPart : ℚ) / (10 : ℚ) ^ fracPart.length
    match t3 with
    | [] => some (sign * mantissa)
    | 'e' :: r =>
      let (esign, r1) : ℤ × List Char :=
        match r with
        | '-' :: r2 => (-1, r2)
        | '+' :: r2 => (1, r2)
        | _ => (1, r)
      let eDigits := r1.takeWhile Char.isDigit
      if eDigits = [] ∨ r1.dropWhile Char.isDigit ≠ [] then none
      else some (sign * mantissa * (10 : ℚ) ^ (esign * (digitsVal eDigits : ℤ)))
    | 'E' :: r =>
      let (esign, r1) : ℤ × List Char :=
        match r with
        | '-' :: r2 => (-1, r2)
        | '+' :: r2 => (1, r2)
        | _ => (1, r)
      let eDigits := r1.takeWhile Char.isDigit
      if eDigits = [] ∨ r1.dropWhile Char.isDigit ≠ [] then none
      else some (sign * mantissa * (10 : ℚ) ^ (esign * (digitsVal eDigits : ℤ)))
    | _ => if hasDot = true ∨ intPart ≠ [] then none else none

/-- `_parse_price` (api.py lines 75-82): empty or unparsable input degrades
to `0.0`, never raises. -/
def parse_price (s : List Char) : ℚ :=
  if s = [] then 0
  else
    match parsePyFloat s with
    | some q => q
    | none => 0

/-- Raw `pricing` sub-dict of one `/api/v1/models` entry: each field is a
string when the key is present (`pricing.get(k, default)`). -/
structure RawPricing where
  prompt : Option (List Char)
  completion : Option (List Char)
  internal_reasoning : Option (List Char)
  image : Option (List Char)
  web_search : Option (List Char)
  input_cache_read : Option (List Char)
  input_cache_write : Option (List Char)

/-- Raw `/api/v1/models` entry (the fields `fetch_model_pricing` reads,
after its `.get(..., "")` defaulting of id/canonical_slug/name). -/
structure RawModel where
  id : List Char
  canonical_slug : List Char
  name : List Char
  pricing : RawPricing

/-- Built price record (`entry` dict of `fetch_model_pricing`). -/
structure PriceEntry where
  id : List Char
  name : List Char
  prompt_price : ℚ
  completion_price : ℚ
  reasoning_price : ℚ
  image_price : ℚ
  web_search_price : ℚ
  cache_read_price : ℚ
  cache_write_price : ℚ
  deriving DecidableEq, Repr

/-- Per-entry record construction of `fetch_model_pricing`
(api.py lines 42-64), including the reasoning-price fallback at lines 50-52. -/
def buildPriceEntry (m : RawModel) : PriceEntry :=
  let prompt_price := parse_price (m.pricing.prompt.getD ("0".toList))
  let completion_price := parse_price (m.pricing.completion.getD ("0".toList))
  let reasoning_price0 := parse_price (m.pricing.internal_reasoning.getD [])
  let image_price := parse_price (m.pricing.image.getD ("0".toList))
  let web_search_price := parse_price (m.pricing.web_search.getD ("0".toList))
  let cache_read_price := parse_price (m.pricing.input_cache_read.getD ("0".toList))
  let cache_write_price := parse_price (m.pricing.input_cache_write.getD ("0".toList))
  let reasoning_price :=
    if reasoning_price0 = 0 then completion_price else reasoning_price0
  { id := m.id, name := m.name,
    prompt_price := prompt_price, completion_price := completion_price,
    reasoning_price := reasoning_price, image_price := image_price,
    web_search_price := web_search_price, cache_read_price := cache_read_price,
    cache_write_price := cache_write_price }

/-- Python-dict assignment on an insertion-ordered association list:
update in place when the key exists, append otherwise. -/
def dictSet {α β : Type} [DecidableEq α] : List (α × β) → α → β → List (α × β)
  | [], k, v => [(k, v)]
  | (a, b) :: t, k, v => if a = k then (a, v) :: t else (a, b) :: dictSet t k v

/-- Python-dict lookup on an insertion-ordered association list. -/
def dlookup {α β : Type} [DecidableEq α] : List (α × β) → α → Option β
  | [], _ => none
  | (k, v) :: t, s => if k = s then some v else dlookup t s

/-- Map construction of `fetch_model_pricing` (api.py lines 66-70): each
entry is indexed under its canonical slug and its id when nonempty. -/
def fetch_model_pricing_map (ms : List RawModel) : List (List Char × PriceEntry) :=
  ms.foldl (fun acc m =>
    let entry := buildPriceEntry m
    let acc1 := if m.canonical_slug ≠ [] then dictSet acc m.canonical_slug entry else acc
    if m.id ≠ [] then dictSet acc1 m.id entry else acc1) []

/-- Concrete raw entry for the C7 witness: completion price `"0.02"`,
reasoning price absent (defaulted to the empty string). -/
def rawModelW : RawModel :=
  { id := "prov/model".toList, canonical_slug := "prov/model-slug".toList,
    name := "Model".toList,
    pricing :=
      { prompt := some ("0.000003".toList), completion := some ("0.02".toList),
        internal_reasoning := none, image := none, web_search := none,
        input_cache_read := none, input_cache_write := none } }

/-! ## Revenue reconciliation (calculator.py) -/

/-- One row of `scrape_rankings()` output, as consumed by
`calculate_revenue` (rank, slug, name, leaderboard period total,
percent change). -/
structure RankedModel where
  rank : ℕ
  slug : List Char
  name : List Char
  total_tokens : ℕ
  percent_change : ℤ
  deriving DecidableEq, Repr

/-- One element of the `models` list of the `calculate_revenue` result
(calculator.py lines 114-134). -/
structure RevenueRecord where
  rank : ℕ
  slug : List Char
  name : List Char
  total_tokens : ℕ
  percent_change : ℤ
  prompt_tokens : ℕ
  completion_tokens : ℕ
  reasoning_tokens : ℕ
  cached_tokens : ℕ
  request_count : ℕ
  prompt_ratio : ℚ
  completion_ratio : ℚ
  reasoning_ratio : ℚ
  prompt_price : ℚ
  completion_price : ℚ
  reasoning_price : ℚ
  cache_read_price : ℚ
  estimated_revenue : ℚ
  is_free : Bool
  deriving DecidableEq, Repr

/-- The aggregate result of `calculate_revenue`
(calculator.py lines 147-160); `tb_*` is the `token_breakdown` sub-dict. -/
structure RevenueReport where
  models : List RevenueRecord
  total_revenue : ℚ
  total_tokens : ℕ
  total_models : ℕ
  paid_models : ℕ
  free_models : ℕ
  tb_prompt_tokens : ℕ
  tb_completion_tokens : ℕ
  tb_reasoning_tokens : ℕ
  tb_cached_tokens : ℕ
  deriving DecidableEq, Repr

/-- `activities.get(slug, {})` followed by per-field `.get(..., 0)`
(calculator.py lines 54-59). -/
def activityOf (activities : List (List Char × Activity)) (slug : List Char) :
    Activity :=
  (dlookup activities slug).getD zeroActivity

/-- `a.lower().replace("-", " ").replace(".", " ")` of `_slug_similarity`. -/
def slugCanon (s : List Char) : List Char :=
  ((s.map Char.toLower).map (fun c => if c = '-' then ' ' else c)).map
    (fun c => if c = '.' then ' ' else c)

/-- Whitespace-run splitter (Python `str.split()` with no argument):
groups of non-whitespace characters, empties discarded. -/
def splitWsGo : List Char → List Char → List (List Char)
  | [], cur => if cur = [] then [] else [cur.reverse]
  | c :: t, cur =>
    if c.isWhitespace then
      if cur = [] then splitWsGo t [] else cur.reverse :: splitWsGo t []
    else splitWsGo t (c :: cur)

/-- Python `str.split()` (no argument). -/
def pySplitWs (s : List Char) : List (List Char) := splitWsGo s []

/-- `_slug_similarity` (calculator.py lines 183-191): Jaccard index of the
canonicalised token sets of the two slugs, `0.0` when either set is empty. -/
def slug_similarity (a b : List Char) : ℚ :=
  let ap := (pySplitWs (slugCanon a)).dedup
  let bp := (pySplitWs (slugCanon b)).dedup
  if ap = [] ∨ bp = [] then 0
  else ((ap.filter (fun x => x ∈ bp)).length : ℚ) / (((ap ++ bp).dedup).length : ℚ)

/-- The provider-prefix scan of `_find_pricing` (calculator.py lines
175-178): first pricing item whose key starts with the query's provider
prefix and whose similarity with the query exceeds 0.7. -/
def fuzzyScan (slug : List Char) :
    List (List Char × PriceEntry) → Option PriceEntry
  | [] => none
  | (k, v) :: t =>
    if ((slug.takeWhile (fun c => c ≠ '/')) ++ ['/']).isPrefixOf k ∧
        slug_similarity slug k > 7 / 10 then some v
    else fuzzyScan slug t

/-- `_find_pricing` (calculator.py lines 163-180): exact key, then the
key with any `:variant` suffix stripped, then the fuzzy provider scan. -/
def find_pricing (slug : List Char)
    (pricing : List (List Char × PriceEntry)) : Option PriceEntry :=
  match dlookup pricing slug with
  | some v => some v
  | none =>
    match dlookup pricing (slug.takeWhile (fun c => c ≠ ':')) with
    | some v => some v
    | none => fuzzyScan slug pricing

/-- `price_info.get("prompt_price", 0.0) if price_info else 0.0`. -/
def promptPriceOf (pricing : List (List Char × PriceEntry)) (slug : List Char) : ℚ :=
  match find_pricing slug pricing with
  | some p => p.prompt_price
  | none => 0

/-- Resolved completion price, `0.0` when the lookup fails. -/
def completionPriceOf (pricing : List (List Char × PriceEntry)) (slug : List Char) : ℚ :=
  match find_pricing slug pricing with
  | some p => p.completion_price
  | none => 0

/-- Resolved reasoning price, `0.0` when the lookup fails. -/
def reasoningPriceOf (pricing : List (List Char × PriceEntry)) (slug : List Char) : ℚ :=
  match find_pricing slug pricing with
  | some p => p.reasoning_price
  | none => 0

/-- Resolved cache-read price, `0.0` when the lookup fails. -/
def cacheReadPriceOf (pricing : List (List Char × PriceEntry)) (slug : List Char) : ℚ :=
  match find_pricing slug pricing with
  | some p => p.cache_read_price
  | none => 0

/-- Round-half-to-even to an integer (the rounding Python's `round`
performs on exact values). -/
def halfEvenInt (q : ℚ) : ℤ :=
  if q - ⌊q⌋ < 1 / 2 then ⌊q⌋
  else if 1 / 2 < q - ⌊q⌋ then ⌊q⌋ + 1
  else if ⌊q⌋ % 2 = 0 then ⌊q⌋ else ⌊q⌋ + 1

/-- Python `round(q, n)` on exact values: round `q` to `n` decimal places,
half to even. -/
def roundq (n : ℕ) (q : ℚ) : ℚ := (halfEvenInt (q * 10 ^ n) : ℚ) / 10 ^ n

/-- The unrounded per-model revenue of the loop body (calculator.py lines
96-100): prompt, completion and cached tokens at their resolved prices
(reasoning never billed separately). -/
def rawRevenue (activities : List (List Char × Activity))
    (pricing : List (List Char × PriceEntry)) (m : RankedModel) : ℚ :=
  let a := activityOf activities m.slug
  (a.prompt_tokens : ℚ) * promptPriceOf pricing m.slug +
    (a.completion_tokens : ℚ) * completionPriceOf pricing m.slug +
    (a.cached_tokens : ℚ) * cacheReadPriceOf pricing m.slug

/-- The per-model record built by one iteration of the `calculate_revenue`
loop (calculator.py lines 46-134). -/
def mkRecord (activities : List (List Char × Activity))
    (pricing : List (List Char × PriceEntry)) (m : RankedModel) : RevenueRecord :=
  let a := activityOf activities m.slug
  let analytics_total := a.prompt_tokens + a.completion_tokens
  let prompt_ratio : ℚ :=
    if 0 < analytics_total then (a.prompt_tokens : ℚ) / (analytics_total : ℚ) else 0
  let completion_ratio : ℚ :=
    if 0 < analytics_total then (a.completion_tokens : ℚ) / (analytics_total : ℚ) else 0
  let reasoning_ratio : ℚ :=
    if 0 < analytics_total then (a.reasoning_tokens : ℚ) / (analytics_total : ℚ) else 0
  let pp := promptPriceOf pricing m.slug
  let cp := completionPriceOf pricing m.slug
  { rank := m.rank, slug := m.slug, name := m.name,
    total_tokens := m.total_tokens, percent_change := m.percent_change,
    prompt_tokens := a.prompt_tokens, completion_tokens := a.completion_tokens,
    reasoning_tokens := a.reasoning_tokens, cached_tokens := a.cached_tokens,
    request_count := a.request_count,
    prompt_ratio := roundq 4 prompt_ratio,
    completion_ratio := roundq 4 completion_ratio,
    reasoning_ratio := roundq 4 reasoning_ratio,
    prompt_price := pp, completion_price := cp,
    reasoning_price := reasoningPriceOf pricing m.slug,
    cache_read_price := cacheReadPriceOf pricing m.slug,
    estimated_revenue := roundq 2 (rawRevenue activities pricing m),
    is_free := decide (pp = 0 ∧ cp = 0) }

/-- Accumulator of the `calculate_revenue` loop
(calculator.py lines 36-44). -/
structure CalcState where
  models_result : List RevenueRecord
  total_revenue : ℚ
  total_tokens : ℕ
  paid_count : ℕ
  free_count : ℕ
  agg_prompt : ℕ
  agg_completion : ℕ
  agg_reasoning : ℕ
  agg_cached : ℕ

/-- Initial accumulator of the `calculate_revenue` loop. -/
def calcInit : CalcState := ⟨[], 0, 0, 0, 0, 0, 0, 0, 0⟩

/-- One iteration of the `calculate_revenue` loop (calculator.py lines
46-142): note the running `total_revenue` adds the UNROUNDED revenue. -/
def calcStep (activities : List (List Char × Activity))
    (pricing : List (List Char × PriceEntry)) (st : CalcState)
    (m : RankedModel) : CalcState :=
  let a := activityOf activities m.slug
  let r := mkRecord activities pricing m
  { models_result := st.models_result ++ [r],
    total_revenue := st.total_revenue + rawRevenue activities pricing m,
    total_tokens := st.total_tokens + m.total_tokens,
    paid_count := st.paid_count + (if r.is_free then 0 else 1),
    free_count := st.free_count + (if r.is_free then 1 else 0),
    agg_prompt := st.agg_prompt + a.prompt_tokens,
    agg_completion := st.agg_completion + a.completion_tokens,
    agg_reasoning := st.agg_reasoning + a.reasoning_tokens,
    agg_cached := st.agg_cached + a.cached_tokens }

/-- Descending order on estimated revenue (`sort(key=..., reverse=True)`). -/
def revGe (x y : RevenueRecord) : Prop :=
  y.estimated_revenue ≤ x.estimated_revenue

instance : DecidableRel revGe := fun x y =>
  inferInstanceAs (Decidable (y.estimated_revenue ≤ x.estimated_revenue))

instance : IsTotal RevenueRecord revGe := ⟨fun _ _ => le_total _ _⟩

instance : IsTrans RevenueRecord revGe := ⟨fun _ _ _ hxy hyz => le_trans hyz hxy⟩

/-- `calculate_revenue` (calculator.py lines 8-160): fold the loop over the
rankings, sort the per-model list by estimated revenue descending, round
the accumulated total revenue to 2 decimals. -/
def calculate_revenue (rankings : List RankedModel)
    (activities : List (List Char × Activity))
    (pricing : List (List Char × PriceEntry)) : RevenueReport :=
  let st := rankings.foldl (calcStep activities pricing) calcInit
  { models := List.insertionSort revGe st.models_result,
    total_revenue := roundq 2 st.total_revenue,
    total_tokens := st.total_tokens,
    total_models := st.models_result.length,
    paid_models := st.paid_count,
    free_models := st.free_count,
    tb_prompt_tokens := st.agg_prompt,
    tb_completion_tokens := st.agg_completion,
    tb_reasoning_tokens := st.agg_reasoning,
    tb_cached_tokens := st.agg_cached }

/-- First C3 counterexample input: two paid models, each with 4 prompt
tokens observed. -/
def cexM3a : RankedModel := ⟨1, "prov/a".toList, "A".toList, 50, 0⟩

/-- Second C3 counterexample input model. -/
def cexM3b : RankedModel := ⟨2, "prov/b".toList, "B".toList, 60, 0⟩

/-- C3 counterexample rankings. -/
def cexR3 : List RankedModel := [cexM3a, cexM3b]

/-- C3 counterexample activities: each model has 4 observed prompt tokens. -/
def cexA3 : List (List Char × Activity) :=
  [("prov/a".toList, ⟨4, 0, 0, 0, 0⟩), ("prov/b".toList, ⟨4, 0, 0, 0, 0⟩)]

/-- C3 counterexample price entry: prompt price 0.001, all other rates 0. -/
def cexP3e : PriceEntry :=
  ⟨"prov/a".toList, "A".toList, 1 / 1000, 0, 0, 0, 0, 0, 0⟩

/-- C3 counterexample price book. -/
def cexP3 : List (List Char × PriceEntry) :=
  [("prov/a".toList, cexP3e), ("prov/b".toList, cexP3e)]

/-- C1 counterexample ranked model. -/
def cexM1 : RankedModel := ⟨1, "prov/c".toList, "C".toList, 77, 0⟩

/-- C1 counterexample rankings list. -/
def cexR1 : List RankedModel := [cexM1]

/-- C1 counterexample activities: zero observed prompt/completion tokens
but 500 cached tokens. -/
def cexA1 : List (List Char × Activity) :=
  [("prov/c".toList, ⟨0, 0, 0, 500, 0⟩)]

/-- C1 counterexample price entry: cache-read price 1, everything else 0. -/
def cexP1e : PriceEntry :=
  ⟨"prov/c".toList, "C".toList, 0, 0, 0, 0, 0, 1, 0⟩

/-- C1 counterexample price book. -/
def cexP1 : List (List Char × PriceEntry) :=
  [("prov/c".toList, cexP1e)]

/-- C1 witness rankings: a model with no activity record at all. -/
def cexM1w : RankedModel := ⟨2, "prov/d".toList, "D".toList, 88, -3⟩

/-! ## Daily analytics extraction (scraper.py `_extract_daily_data`)

The two regular expressions of `_extract_daily_data` are deterministic
(every alternation `(?:\\"|")` and every greedy run `[^"\\]*`, `\d+` has a
follow-set disjoint from its own character class), so they are translated
as the straight-line matchers below; `re.findall` semantics is the
left-to-right non-overlapping scan `findDailyGo`/`findCachedGo`. -/

/-- The `(?:\\"|")` alternation `Q`: consume an escaped or plain quote. -/
def matchQ : List Char → Option (List Char)
  | '\\' :: '"' :: r => some r
  | '"' :: r => some r
  | _ => none

/-- Consume an exact literal. -/
def matchLit (lit : List Char) (s : List Char) : Option (List Char) :=
  if lit.isPrefixOf s then some (s.drop lit.length) else none

/-- Consume `\d{4}-\d{2}-\d{2}`, returning the 10-character date. -/
def matchDate : List Char → Option (List Char × List Char)
  | a :: b :: c :: d :: '-' :: e :: f :: '-' :: g :: h :: r =>
    if a.isDigit ∧ b.isDigit ∧ c.isDigit ∧ d.isDigit ∧ e.isDigit ∧
        f.isDigit ∧ g.isDigit ∧ h.isDigit then
      some ([a, b, c, d, '-', e, f, '-', g, h], r)
    else none
  | _ => none

/-- Consume `\d+`, returning its `int` value (exact, arbitrary precision). -/
def matchNum (s : List Char) : Option (ℕ × List Char) :=
  let ds := s.takeWhile Char.isDigit
  if ds = [] then none else some (digitsVal ds, s.dropWhile Char.isDigit)

/-- The character class `[^"\\]` of the daily patterns. -/
def notQB (c : Char) : Bool := ¬ (c = '"' ∨ c = '\\')

/-- Consume `Q key Q :` — the field-name prefix shared by every field of
both patterns. -/
def matchKey (key : List Char) (s : List Char) : Option (List Char) :=
  match matchQ s with
  | none => none
  | some s1 =>
    match matchLit key s1 with
    | none => none
    | some s2 =>
      match matchQ s2 with
      | none => none
      | some s3 => matchLit [':'] s3

/-- Consume `Q ([^"\\]*) Q`, returning the captured run. -/
def matchQStr (s : List Char) : Option (List Char × List Char) :=
  match matchQ s with
  | none => none
  | some s1 =>
    match matchQ (s1.dropWhile notQB) with
    | none => none
    | some s2 => some (s1.takeWhile notQB, s2)

/-- Consume `Q (\d{4}-\d{2}-\d{2})[^"\\]* Q`, returning the date. -/
def matchQDate (s : List Char) : Option (List Char × List Char) :=
  match matchQ s with
  | none => none
  | some s1 =>
    match matchDate s1 with
    | none => none
    | some (d, s2) =>
      match matchQ (s2.dropWhile notQB) with
      | none => none
      | some s3 => some (d, s3)

/-- Consume `Q key Q : Q ([^"\\]*) Q ,` — one string field with its
trailing comma. -/
def matchStrFieldComma (key : List Char) (s : List Char) :
    Option (List Char × List Char) :=
  match matchKey key s with
  | none => none
  | some s1 =>
    match matchQStr s1 with
    | none => none
    | some (cap, s2) =>
      match matchLit [','] s2 with
      | none => none
      | some s3 => some (cap, s3)

/-- Consume `Q key Q :(\d+),` — one numeric field with its trailing comma. -/
def matchNumComma (key : List Char) (s : List Char) : Option (ℕ × List Char) :=
  match matchKey key s with
  | none => none
  | some s1 =>
    match matchNum s1 with
    | none => none
    | some (n, s2) =>
      match matchLit [','] s2 with
      | none => none
      | some s3 => some (n, s3)

/-- Consume `Q date Q : Q (\d{4}-\d{2}-\d{2})[^"\\]* Q ,` — the date field
opening both patterns. -/
def matchDateFieldComma (s : List Char) : Option (List Char × List Char) :=
  match matchKey ("date".toList) s with
  | none => none
  | some s1 =>
    match matchQDate s1 with
    | none => none
    | some (d, s2) =>
      match matchLit [','] s2 with
      | none => none
      | some s3 => some (d, s3)

/-- One first-pattern match of `_extract_daily_data`
(scraper.py lines 259-267), in `re.findall` capture order. -/
structure DailyEntry where
  date : List Char
  variant : List Char
  completion : ℕ
  prompt : ℕ
  reasoning : ℕ
  count : ℕ
  deriving DecidableEq, Repr

/-- Attempt the first (daily) pattern at the head of `s`; on success return
the captured entry and the remainder after the match. -/
def matchDailyAt (s : List Char) : Option (DailyEntry × List Char) :=
  match matchDateFieldComma s with
  | none => none
  | some (date, s1) =>
    match matchStrFieldComma ("model_permaslug".toList) s1 with
    | none => none
    | some (_, s2) =>
      match matchStrFieldComma ("variant".toList) s2 with
      | none => none
      | some (variant, s3) =>
        match matchNumComma ("total_completion_tokens".toList) s3 with
        | none => none
        | some (completion, s4) =>
          match matchNumComma ("total_prompt_tokens".toList) s4 with
          | none => none
          | some (prompt, s5) =>
            match matchNumComma ("total_native_tokens_reasoning".toList) s5 with
            | none => none
            | some (reasoning, s6) =>
              match matchKey ("count".toList) s6 with
              | none => none
              | some s7 =>
                match matchNum s7 with
                | none => none
                | some (count, s8) =>
                  some (⟨date, variant, completion, prompt, reasoning, count⟩, s8)

/-- `re.findall` scan of the daily pattern: try a match at every position,
left to right, continuing after each match (fuel bounds the walk; the
initial fuel `s.length` always suffices since every step strictly shortens
the text). -/
def findDailyGo : ℕ → List Char → List DailyEntry
  | 0, _ => []
  | _ + 1, [] => []
  | fuel + 1, c :: t =>
    match matchDailyAt (c :: t) with
    | some (e, rest) => e :: findDailyGo fuel rest
    | none => findDailyGo fuel t

/-- All first-pattern matches of the page text. -/
def findDaily (s : List Char) : List DailyEntry := findDailyGo s.length s

/-- Tail of the cached pattern: `Q total_native_tokens_cached Q :(\d+)`. -/
def matchCachedTail (s : List Char) : Option (ℕ × List Char) :=
  match matchKey ("total_native_tokens_cached".toList) s with
  | none => none
  | some s1 => matchNum s1

/-- The lazy `.*?` of the cached pattern: find the nearest position where
the tail matches, never crossing a newline (Python `.` excludes `\n`). -/
def lazyScanCached : ℕ → List Char → Option (ℕ × List Char)
  | 0, _ => none
  | fuel + 1, s =>
    match matchCachedTail s with
    | some r => some r
    | none =>
      match s with
      | [] => none
      | c :: t => if c = '\n' then none else lazyScanCached fuel t

/-- Attempt the second (cached) pattern at the head of `s`
(scraper.py lines 274-279). -/
def matchCachedAt (s : List Char) : Option ((List Char × ℕ) × List Char) :=
  match matchDateFieldComma s with
  | none => none
  | some (date, s1) =>
    match matchQ s1 with
    | none => none
    | some s2 =>
      match matchLit ("model_permaslug".toList) s2 with
      | none => none
      | some s3 =>
        match matchQ s3 with
        | none => none
        | some s4 =>
          match lazyScanCached s4.length s4 with
          | none => none
          | some (cached, s5) => some ((date, cached), s5)

/-- `re.findall` scan of the cached pattern. -/
def findCachedGo : ℕ → List Char → List (List Char × ℕ)
  | 0, _ => []
  | _ + 1, [] => []
  | fuel + 1, c :: t =>
    match matchCachedAt (c :: t) with
    | some (p, rest) => p :: findCachedGo fuel rest
    | none => findCachedGo fuel t

/-- All second-pattern matches of the page text. -/
def findCached (s : List Char) : List (List Char × ℕ) := findCachedGo s.length s

/-- Add one daily entry into a date's running totals
(`daily_totals[date][...] += ...`, cached untouched by the first pass). -/
def addDailyEntry (r : DayRec) (e : DailyEntry) : DayRec :=
  ⟨r.prompt + e.prompt, r.completion + e.completion,
   r.reasoning + e.reasoning, r.cached, r.count + e.count⟩

/-- One iteration of the grouping loop (scraper.py lines 286-294): create a
zero record for a fresh date, then add the entry's fields. -/
def bumpDaily : List (List Char × DayRec) → DailyEntry → List (List Char × DayRec)
  | [], e => [(e.date, addDailyEntry zeroDay e)]
  | (d, r) :: t, e =>
    if d = e.date then (d, addDailyEntry r e) :: t
    else (d, r) :: bumpDaily t e

/-- One iteration of the cached grouping loop (scraper.py lines 281-282):
`cached_by_date[date] = cached_by_date.get(date, 0) + int(cached)`. -/
def bumpCached : List (List Char × ℕ) → (List Char × ℕ) → List (List Char × ℕ)
  | [], p => [p]
  | (k, v) :: t, p =>
    if k = p.1 then (k, v + p.2) :: t
    else (k, v) :: bumpCached t p

/-- One iteration of the merge loop (scraper.py lines 297-299): dates
already present receive the cached total by assignment. -/
def setCached : List (List Char × DayRec) → (List Char × ℕ) → List (List Char × DayRec)
  | [], _ => []
  | (d, r) :: t, p =>
    if d = p.1 then (d, { r with cached := p.2 }) :: t
    else (d, r) :: setCached t p

/-- `_extract_daily_data` (scraper.py lines 241-301): run both pattern
scans, return the empty dict when the first finds nothing, otherwise group
the first-pattern entries by date and merge in the cached totals. -/
def extract_daily_data (html : List Char) : List (List Char × DayRec) :=
  let daily_entries := findDaily html
  if daily_entries = [] then []
  else
    let cached_by_date := (findCached html).foldl bumpCached []
    let daily_totals := daily_entries.foldl bumpDaily []
    cached_by_date.foldl setCached daily_totals

/-- Concrete model page for the C8 counterexample: one embedded daily
entry whose reasoning count (10) exceeds its completion count (5). -/
def cexHtml8 : List Char :=
  ("\"date\":\"2025-01-02\",\"model_permaslug\":\"m\",\"variant\":\"standard\"," ++
   "\"total_completion_tokens\":5,\"total_prompt_tokens\":1," ++
   "\"total_native_tokens_reasoning\":10,\"count\":1").toList

/-- Concrete model page for the C8 witness: one entry with completion 10
and reasoning 4. -/
def cexHtml8w : List Char :=
  ("\"date\":\"2025-01-03\",\"model_permaslug\":\"m\",\"variant\":\"standard\"," ++
   "\"total_completion_tokens\":10,\"total_prompt_tokens\":2," ++
   "\"total_native_tokens_reasoning\":4,\"count\":1").toList

/-! ## Weekly chart extraction (scraper.py `scrape_rankings_history`)

The pipeline of lines 91-155: split out `<script>` payloads, un-escape
nested quoting, scan for `"x":"<date>...","ys":{` markers, brace-match the
`ys` object (bounded at 10000 characters), extract `"key":number` pairs,
keep entries with at least one `/`-key, pick the script with the most
entries and sort ascending by week start.  Numeric values are
`int(float(...))` of an unsigned decimal literal — a non-negative integer,
modelled exactly (ℕ truncation of the literal; binary float rounding of
enormous literals is not modelled). -/

/-- Split `s` at the first occurrence of `pat`: the part before and the
part after the occurrence. -/
def splitAtSub (pat : List Char) : List Char → Option (List Char × List Char)
  | [] => if pat.isPrefixOf ([] : List Char) then some ([], []) else none
  | c :: t =>
    if pat.isPrefixOf (c :: t) then some ([], (c :: t).drop pat.length)
    else
      match splitAtSub pat t with
      | none => none
      | some (pre, post) => some (c :: pre, post)

/-- `re.findall(r"<script[^>]*>(.*?)</script>", html, re.DOTALL)`
(scraper.py line 91): find `<script`, skip to the closing `>` of the tag,
capture lazily up to the next `</script>`, repeat after it. -/
def scriptTagsGo : ℕ → List Char → List (List Char)
  | 0, _ => []
  | fuel + 1, s =>
    match splitAtSub ("<script".toList) s with
    | none => []
    | some (_, rest) =>
      match splitAtSub ['>'] rest with
      | none => []
      | some (_, rest2) =>
        match splitAtSub ("</script>".toList) rest2 with
        | none => scriptTagsGo fuel rest
        | some (content, rest3) => content :: scriptTagsGo fuel rest3

/-- All script payloads of the page. -/
def scriptTags (html : List Char) : List (List Char) :=
  scriptTagsGo html.length html

/-- Python `str.replace`: replace all non-overlapping occurrences of `pat`
left to right. -/
def replaceSubGo (pat rep : List Char) : ℕ → List Char → List Char
  | 0, s => s
  | _ + 1, [] => []
  | fuel + 1, c :: t =>
    if pat.isPrefixOf (c :: t) then
      rep ++ replaceSubGo pat rep fuel ((c :: t).drop pat.length)
    else c :: replaceSubGo pat rep fuel t

/-- Python `s.replace(pat, rep)`. -/
def pyReplace (pat rep s : List Char) : List Char :=
  replaceSubGo pat rep s.length s

/-- `script.replace('\\"', '"').replace('\\\\', '\\')` (scraper.py line 99). -/
def unescape (s : List Char) : List Char :=
  pyReplace ['\\', '\\'] ['\\'] (pyReplace ['\\', '"'] ['"'] s)

/-- Attempt the entry marker `"x":"(\d{4}-\d{2}-\d{2})(?:[^"]*)?","ys":\{`
at the head of `s` (scraper.py line 102); on success return the date, the
suffix starting at the opening brace (`m.end() - 1`) and the suffix after
the whole match (`m.end()`, where the scan resumes). -/
def matchMarker (s : List Char) : Option (List Char × List Char × List Char) :=
  match matchLit ("\"x\":\"".toList) s with
  | none => none
  | some s1 =>
    match matchDate s1 with
    | none => none
    | some (date, s2) =>
      match splitAtSub ['"'] s2 with
      | none => none
      | some (_, s3) =>
        match matchLit (",\"ys\":\x7b".toList) s3 with
        | none => none
        | some s4 => some (date, '\x7b' :: s4, s4)

/-- The `re.finditer` scan for entry markers. -/
def findMarkersGo : ℕ → List Char → List (List Char × List Char)
  | 0, _ => []
  | _ + 1, [] => []
  | fuel + 1, c :: t =>
    match matchMarker (c :: t) with
    | some (date, braceSuffix, rest) => (date, braceSuffix) :: findMarkersGo fuel rest
    | none => findMarkersGo fuel t

/-- All entry markers of an un-escaped script. -/
def findMarkers (s : List Char) : List (List Char × List Char) :=
  findMarkersGo s.length s

/-- Depth-counted brace matching (scraper.py lines 106-115), bounded at
10000 characters; `none` when no balanced close is found within the bound
(the source then leaves `ys_str = "{"`, which yields no pairs). -/
def braceGo : ℕ → ℤ → List Char → List Char → Option (List Char)
  | 0, _, _, _ => none
  | _ + 1, _, _, [] => none
  | fuel + 1, depth, acc, c :: t =>
    if c = '\x7b' then braceGo fuel (depth + 1) (c :: acc) t
    else if c = '\x7d' then
      if depth - 1 = 0 then some (c :: acc).reverse
      else braceGo fuel (depth - 1) (c :: acc) t
    else braceGo fuel depth (c :: acc) t

/-- The balanced `ys` span starting at the opening brace. -/
def braceSpan (s : List Char) : Option (List Char) := braceGo 10000 0 [] s

/-- Attempt the pair pattern `"([^"]+)":(\d+(?:\.\d+)?)` at the head of
`s`; the value is `int(float(...))`, i.e. the integer part of the literal. -/
def matchPairAt (s : List Char) : Option ((List Char × ℕ) × List Char) :=
  match s with
  | '"' :: t =>
    (match splitAtSub ['"'] t with
    | none => none
    | some (key, s2) =>
      if key = [] then none
      else
        match matchLit [':'] s2 with
        | none => none
        | some s3 =>
          match matchNum s3 with
          | none => none
          | some (n, s4) =>
            match s4 with
            | '.' :: s5 =>
              if s5.takeWhile Char.isDigit = [] then some ((key, n), s4)
              else some ((key, n), s5.dropWhile Char.isDigit)
            | _ => some ((key, n), s4))
  | _ => none

/-- The `re.findall` scan for pairs inside a `ys` span. -/
def findPairsGo : ℕ → List Char → List (List Char × ℕ)
  | 0, _ => []
  | _ + 1, [] => []
  | fuel + 1, c :: t =>
    match matchPairAt (c :: t) with
    | some (p, rest) => p :: findPairsGo fuel rest
    | none => findPairsGo fuel t

/-- All `"key":number` pairs of a `ys` span. -/
def findPairs (s : List Char) : List (List Char × ℕ) :=
  findPairsGo s.length s

/-- One parsed weekly entry (scraper.py lines 139-144). -/
structure ChartEntry where
  week_start : List Char
  models : List (List Char × ℤ)
  others : ℤ
  total : ℤ
  deriving DecidableEq, Repr

/-- One iteration of the entry-construction loop (scraper.py lines
131-137): every pair's value counts toward `total`; an `"Others"` key sets
the others bucket, any other key is assigned into the models dict. -/
def buildChartStep (st : List (List Char × ℤ) × ℤ × ℤ) (p : List Char × ℕ) :
    List (List Char × ℤ) × ℤ × ℤ :=
  let tokens : ℤ := (p.2 : ℤ)
  let total := st.2.2 + tokens
  if p.1 = ("Others".toList) then (st.1, tokens, total)
  else (dictSet st.1 p.1 tokens, st.2.1, total)

/-- Build one `ChartEntry` from a date and its extracted pairs. -/
def buildEntry (date : List Char) (pairs : List (List Char × ℕ)) : ChartEntry :=
  let st := pairs.foldl buildChartStep ([], 0, 0)
  { week_start := date, models := st.1, others := st.2.1, total := st.2.2 }

/-- The candidate entries of one un-escaped script: each marker whose `ys`
object closes within the scan bound, with its extracted pairs. -/
def rawChartEntries (unescaped : List Char) :
    List (List Char × List (List Char × ℕ)) :=
  (findMarkers unescaped).filterMap (fun m =>
    match braceSpan m.2 with
    | none => none
    | some ys => some (m.1, findPairs ys))

/-- Does a key contain the provider/model separator `/`? -/
def hasSlash (k : List Char) : Bool := decide ('/' ∈ k)

/-- All accepted entries of one raw script (scraper.py lines 95-144):
un-escape, scan markers, drop entries with no pairs, keep only entries
with at least one `/`-key. -/
def scriptEntries (script : List Char) : List ChartEntry :=
  (rawChartEntries (unescape script)).filterMap (fun dp =>
    if dp.2 = [] then none
    else if dp.2.any (fun p => hasSlash p.1) then some (buildEntry dp.1 dp.2)
    else none)

/-- `if len(entries) > len(best_entries): best_entries = entries`
(scraper.py lines 147-148). -/
def pickLonger (b e : List ChartEntry) : List ChartEntry :=
  if b.length < e.length then e else b

/-- Lexicographic (code-point) order on strings — Python string `<=`,
which on ISO dates is chronological order. -/
def strLe : List Char → List Char → Bool
  | [], _ => true
  | _ :: _, [] => false
  | a :: s, b :: t => if a = b then strLe s t else decide (a < b)

/-- `sorted(best_entries, key=lambda x: x["week_start"])` comparison. -/
def weekLe (x y : ChartEntry) : Prop := strLe x.week_start y.week_start = true

instance : DecidableRel weekLe := fun x y =>
  inferInstanceAs (Decidable (strLe x.week_start y.week_start = true))

/-- `scrape_rankings_history` (scraper.py lines 52-155) on pre-fetched
page text: consider every script of at least 1000 characters, keep the one
with strictly the most accepted entries (first wins ties), sort ascending
by week start. -/
def scrape_rankings_history (html : List Char) : List ChartEntry :=
  let best := (scriptTags html).foldl (fun best s =>
    if s.length < 1000 then best else pickLonger best (scriptEntries s)) []
  List.insertionSort weekLe best

/-- Specification-side selection: the fold of the length comparison over a
list of candidate entry lists. -/
def selectBest (l : List (List ChartEntry)) : List ChartEntry :=
  l.foldl pickLonger []

/-- The candidate entry lists of a page: one per script of at least 1000
characters, in document order. -/
def chartCands (html : List Char) : List (List ChartEntry) :=
  ((scriptTags html).filter (fun s => ¬ s.length < 1000)).map scriptEntries

/-- The `ys` object of the C4 counterexample entry, with a repeated key. -/
def cexYs4 : List Char := "\x7b\"a/b\":1,\"a/b\":2\x7d".toList

/-- The C4 counterexample entry marker (39 characters). -/
def cexMarker4 : List Char := ("\"x\":\"2025-01-01\",\"ys\":").toList ++ cexYs4

/-- 990 characters of padding that no scanner pattern matches. -/
def padZ : List Char := List.replicate 990 'z'

/-- The C4 counterexample script payload (1029 characters, above the
1000-character acceptance threshold). -/
def cexScript4 : List Char := padZ ++ cexMarker4

/-- Concrete rankings page for the C4 counterexample: one large-enough
script whose single weekly entry repeats the key `a/b`. -/
def cexHtml4 : List Char :=
  ("<script>").toList ++ cexScript4 ++ ("</script>").toList

/-- The entry extracted from the C4 counterexample page. -/
def cexEntry4 : ChartEntry :=
  ⟨"2025-01-01".toList, [("a/b".toList, (2 : ℤ))], 0, 3⟩

/-! ## Claim C5 -/

/-- A small script segment none of whose entry keys contains a slash. -/
def cexNoSlash5 : List Char :=
  "\"x\":\"2025-01-01\",\"ys\":\x7b\"abc\":5\x7d".toList

/-! ## Theorems -/

/-! ## Window aggregator lemmas -/

theorem foldl_sumStep_eq (daily : ℤ → Option DayRec) :
    ∀ (ds : List ℤ) (a : Activity),
      ds.foldl (sumStep daily) a =
        ⟨a.prompt_tokens + (ds.map (dayVal daily DayRec.prompt)).sum,
         a.completion_tokens + (ds.map (dayVal daily DayRec.completion)).sum,
         a.reasoning_tokens + (ds.map (dayVal daily DayRec.reasoning)).sum,
         a.cached_tokens + (ds.map (dayVal daily DayRec.cached)).sum,
         a.request_count + (ds.map (dayVal daily DayRec.count)).sum⟩
  | [], a => by simp
  | d :: ds, a => by
    rw [List.foldl_cons, foldl_sumStep_eq daily ds (sumStep daily a d)]
    cases h : daily d <;>
      simp [sumStep, dayVal, h, addDay, Nat.add_assoc]

theorem sum_daily_window_eq_windowActivity (daily : ℤ → Option DayRec)
    (end_date : ℤ) (days : ℕ) ( skip_partial : Bool) (today : ℤ) :
    sum_daily_window daily end_date days skip_partial today =
      windowActivity daily (windowDates end_date days skip_partial today) := by
  rw [sum_daily_window, foldl_sumStep_eq]
  simp [windowActivity, zeroActivity]

theorem filterMap_some_eq_map {α β : Type} (f : α → β) :
    ∀ l : List α, (l.filterMap fun a => some (f a)) = l.map f
  | [] => by simp
  | a :: l => by
    simp [List.filterMap_cons, filterMap_some_eq_map f l]

theorem filterMap_ite_eq_filter_map (f : ℕ → ℤ) (t : ℤ) :
    ∀ l : List ℕ,
      (l.filterMap fun (i : ℕ) => if f i = t then none else some (f i)) =
        (l.map f).filter (fun d => d ≠ t)
  | [] => by simp
  | a :: l => by
    by_cases h : f a = t <;>
      simp [List.filterMap_cons, h, filterMap_ite_eq_filter_map f t l]

theorem windowDates_false (end_date : ℤ) (days : ℕ) (today : ℤ) :
    windowDates end_date days false today =
      (List.range days).map (fun (i : ℕ) => end_date - (i : ℤ)) := by
  rw [windowDates]
  simp [filterMap_some_eq_map]

theorem windowDates_true_eq_filter (end_date : ℤ) (days : ℕ) (today : ℤ)
    (h : ¬ (end_date = today ∧
      (((List.range days).map (fun (i : ℕ) => end_date - (i : ℤ))).filter
        (fun d => d ≠ today)).length < days)) :
    windowDates end_date days true today =
      ((List.range days).map (fun (i : ℕ) => end_date - (i : ℤ))).filter
        (fun d => d ≠ today) := by
  simp only [windowDates, eq_self_iff_true, true_and]
  rw [filterMap_ite_eq_filter_map (fun (i : ℕ) => end_date - (i : ℤ)) today]
  rw [if_neg h]

theorem length_filter_ne_of_nodup {α : Type} [DecidableEq α] (a : α) :
    ∀ l : List α, l.Nodup → a ∈ l →
      (l.filter (fun x => x ≠ a)).length = l.length - 1 := by
  intro l
  induction l with
  | nil => intro _ h; simp at h
  | cons b l ih =>
    intro hnd hmem
    rcases List.mem_cons.mp hmem with h | h
    · have hself : l.filter (fun x => x ≠ a) = l := by
        apply List.filter_eq_self.mpr
        intro x hx
        simp only [ne_eq, decide_eq_true_eq]
        intro hxa
        exact (List.nodup_cons.mp hnd).1 (h ▸ hxa ▸ hx)
      rw [List.filter_cons]
      rw [if_neg (by simp [h])]
      rw [hself]
      simp only [List.length_cons]
      omega
    · have hba : b ≠ a := fun hb => (List.nodup_cons.mp hnd).1 (hb ▸ h)
      have hlen : 1 ≤ l.length := List.length_pos.mpr (List.ne_nil_of_mem h)
      rw [List.filter_cons, if_pos (by simp [hba])]
      simp only [List.length_cons]
      rw [ih (List.nodup_cons.mp hnd).2 h]
      omega

theorem nodup_range_map_sub (end_date : ℤ) (days : ℕ) :
    ((List.range days).map (fun (i : ℕ) => end_date - (i : ℤ))).Nodup := by
  have hinj : Function.Injective (fun (i : ℕ) => end_date - (i : ℤ)) := by
    intro i j hij
    have h2 : end_date - (i : ℤ) = end_date - (j : ℤ) := hij
    omega
  exact List.Nodup.map hinj (List.nodup_range days)

/-! ## Claim C2 -/

/-- C2: `sum_daily_window` with `skip_partial = false` sums exactly the
dates `end_date, end_date - 1, ..., end_date - (days-1)`, absent dates
contributing zero to every field; with `skip_partial = true` and
`end_date` equal to the current day, it sums exactly the dates
`end_date - 1, ..., end_date - days` (the in-progress day dropped, one
extra earlier day appended, window width kept at `days`). -/
theorem claim_C2 (daily : ℤ → Option DayRec) (D : ℤ) (days : ℕ) (t : ℤ) :
    sum_daily_window daily D days false t =
      windowActivity daily ((List.range days).map (fun (i : ℕ) => D - (i : ℤ))) ∧
    (1 ≤ days →
      sum_daily_window daily D days true D =
        windowActivity daily
          ((List.range days).map (fun (i : ℕ) => D - 1 - (i : ℤ)))) := by
  constructor
  · rw [sum_daily_window_eq_windowActivity, windowDates_false]
  · intro hdays
    rw [sum_daily_window_eq_windowActivity]
    congr 1
    obtain ⟨k, rfl⟩ : ∃ k, days = k + 1 := ⟨days - 1, by omega⟩
    simp only [windowDates, eq_self_iff_true, true_and]
    have hfm : ((List.range (k + 1)).filterMap fun (i : ℕ) =>
        if D - (i : ℤ) = D then none
        else some (D - (i : ℤ))) =
        (List.range k).map (fun (j : ℕ) => D - ((j : ℤ) + 1)) := by
      rw [List.range_succ_eq_map, List.filterMap_cons]
      have h0 : (if D - ((0 : ℕ) : ℤ) = D then (none : Option ℤ)
          else some (D - ((0 : ℕ) : ℤ))) = none := by
        simp
      rw [h0, List.filterMap_map]
      have hcong : ∀ j ∈ List.range k, ((fun (i : ℕ) =>
          if D - (i : ℤ) = D then none
          else some (D - (i : ℤ))) ∘ Nat.succ) j =
          (fun (j : ℕ) => some (D - ((j : ℤ) + 1))) j := by
        intro j _
        have hne : ¬ (D - ((j.succ : ℕ) : ℤ) = D) := by
          push_cast
          omega
        simp only [Function.comp]
        rw [if_neg (by simpa using hne)]
        push_cast
        ring_nf
      rw [List.filterMap_congr hcong, filterMap_some_eq_map]
    rw [hfm]
    have hlen : ((List.range k).map (fun (j : ℕ) => D - ((j : ℤ) + 1))).length = k := by
      simp
    rw [if_pos (by rw [hlen]; omega)]
    have htarget : (List.range (k + 1)).map (fun (i : ℕ) => D - 1 - (i : ℤ)) =
        ((List.range k).map (fun (i : ℕ) => D - 1 - (i : ℤ))) ++ [D - 1 - (k : ℤ)] := by
      rw [List.range_succ, List.map_append]
      simp
    rw [htarget]
    congr 1
    · apply List.map_congr_left
      intro j _
      ring
    · congr 1
      push_cast
      ring

/-- Witness for C2 at the spec's synthetic example: ten days valued
`1,...,10`, window of 7 days ending on day 10 which is also the current
day: the window is days 9 down to 3. -/
theorem claim_C2_witness :
    sum_daily_window dailyTen 10 7 true 10 =
      windowActivity dailyTen
        ((List.range 7).map (fun (i : ℕ) => 10 - 1 - (i : ℤ))) :=
  (claim_C2 dailyTen 10 7 10).2 (by decide)

/-! ## Claim C10 -/

/-- C10: with `skip_partial = true`, when the current day lies strictly
inside the window (it equals `end_date - i` for some `1 ≤ i < days`),
`sum_daily_window` silently drops that date and appends no replacement:
the sum ranges over the remaining `days - 1` dates only. -/
theorem claim_C10 (daily : ℤ → Option DayRec) (D : ℤ) (days i : ℕ) (t : ℤ)
    (h1 : t = D - (i : ℤ)) (h2 : 1 ≤ i) (h3 : i < days) :
    sum_daily_window daily D days true t =
      windowActivity daily
        (((List.range days).map (fun (j : ℕ) => D - (j : ℤ))).filter
          (fun d => d ≠ t)) ∧
    (((List.range days).map (fun (j : ℕ) => D - (j : ℤ))).filter
      (fun d => d ≠ t)).length = days - 1 := by
  have hmem : t ∈ (List.range days).map (fun (j : ℕ) => D - (j : ℤ)) := by
    rw [List.mem_map]
    exact ⟨i, List.mem_range.mpr h3, h1.symm⟩
  have hlen := length_filter_ne_of_nodup t _ (nodup_range_map_sub D days) hmem
  have hlenmap :
      ((List.range days).map (fun (j : ℕ) => D - (j : ℤ))).length = days := by
    simp
  refine ⟨?_, by rw [hlen, hlenmap]⟩
  rw [sum_daily_window_eq_windowActivity]
  congr 1
  apply windowDates_true_eq_filter
  rintro ⟨hDt, _⟩
  have : (i : ℤ) = 0 := by omega
  omega

/-- Witness for C10: concrete history, window of 3 days ending on day 5
with the current day 4 strictly inside; the current day is dropped and
only 2 dates are summed. -/
theorem claim_C10_witness :
    sum_daily_window dailyFive 5 3 true 4 =
      windowActivity dailyFive
        (((List.range 3).map (fun (j : ℕ) => 5 - (j : ℤ))).filter
          (fun d => d ≠ 4)) ∧
    (((List.range 3).map (fun (j : ℕ) => 5 - (j : ℤ))).filter
      (fun d => d ≠ 4)).length = 3 - 1 :=
  claim_C10 dailyFive 5 3 1 4 (by decide) (by decide) (by decide)

/-! ## Claim C6 -/

/-- C6 counterexample: `sum_daily_window` is not a function of
`(dailyHistory, end_date, days, skip_partial)` alone — the source reads
the ambient UTC clock (`datetime.utcnow()`), and with `skip_partial = true`
two runs of the very same four inputs on different current days return
different results. -/
theorem claim_C6_counterexample :
    sum_daily_window dailyFive 5 3 true 5 ≠
      sum_daily_window dailyFive 5 3 true 100 := by
  decide

/-- C6 (amended): each extractor is a pure function of its input text (no
ambient state is read in the embedding), and `sum_daily_window` is
independent of the ambient clock whenever `skip_partial = false`; only the
`skip_partial = true` path depends on the current day, which the source
reads from `datetime.utcnow()` rather than taking as a parameter. -/
theorem claim_C6 (daily : ℤ → Option DayRec) (end_date : ℤ) (days : ℕ)
    (t t' : ℤ) :
    sum_daily_window daily end_date days false t =
      sum_daily_window daily end_date days false t' := by
  rw [sum_daily_window_eq_windowActivity, sum_daily_window_eq_windowActivity,
    windowDates_false, windowDates_false]

/-! ## Claim C7 -/

/-- C7: whenever the parsed reasoning price resolves to `0.0` (in
particular for an empty or malformed raw field), the built record's
reasoning price is the parsed completion price. -/
theorem claim_C7 (m : RawModel)
    (h : parse_price (m.pricing.internal_reasoning.getD []) = 0) :
    (buildPriceEntry m).reasoning_price =
      parse_price (m.pricing.completion.getD ("0".toList)) := by
  simp only [buildPriceEntry, h, if_pos]

/-- Witness for C7: the spec's concrete instance — completion price `"0.02"`
and an absent reasoning price yield a resolved reasoning price equal to the
parsed completion price (which `parse_price_002` below identifies as 1/50). -/
theorem claim_C7_witness :
    (buildPriceEntry rawModelW).reasoning_price =
      parse_price (rawModelW.pricing.completion.getD ("0".toList)) :=
  claim_C7 rawModelW rfl

/-- The parsed completion price of the witness entry is exactly 0.02. -/
theorem parse_price_002 : parse_price ("0.02".toList) = 1 / 50 := by
  have h2 : digitsVal ['0', '2'] = 2 := by decide
  have h0 : digitsVal ['0'] = 0 := by decide
  show (1 : ℚ) * ((digitsVal ['0'] : ℚ) +
    (digitsVal ['0', '2'] : ℚ) / (10 : ℚ) ^ (2 : ℕ)) = 1 / 50
  rw [h0, h2]
  norm_num

/-! ## Calculator fold lemmas -/

theorem calcFold_spec (A : List (List Char × Activity))
    (P : List (List Char × PriceEntry)) :
    ∀ (R : List RankedModel) (st : CalcState),
      (R.foldl (calcStep A P) st).models_result =
        st.models_result ++ R.map (mkRecord A P) ∧
      (R.foldl (calcStep A P) st).total_revenue =
        st.total_revenue + (R.map (rawRevenue A P)).sum ∧
      (R.foldl (calcStep A P) st).total_tokens =
        st.total_tokens + (R.map (fun m => m.total_tokens)).sum
  | [], st => by simp
  | m :: R, st => by
    have ih := calcFold_spec A P R (calcStep A P st m)
    refine ⟨?_, ?_, ?_⟩
    · rw [List.foldl_cons, ih.1]
      simp [calcStep]
    · rw [List.foldl_cons, ih.2.1]
      simp [calcStep, add_assoc]
    · rw [List.foldl_cons, ih.2.2]
      simp [calcStep, Nat.add_assoc]

theorem mem_models_of_mem (A : List (List Char × Activity))
    (P : List (List Char × PriceEntry)) (R : List RankedModel)
    (m : RankedModel) (hm : m ∈ R) :
    mkRecord A P m ∈ (calculate_revenue R A P).models := by
  show mkRecord A P m ∈
    List.insertionSort revGe (R.foldl (calcStep A P) calcInit).models_result
  rw [List.mem_insertionSort, (calcFold_spec A P R calcInit).1]
  simp only [calcInit, List.nil_append]
  exact List.mem_map_of_mem _ hm

/-! ## Rounding evaluation lemmas -/

theorem halfEvenInt_low (q : ℚ) (f : ℤ) (hf : ⌊q⌋ = f) (h : q - f < 1 / 2) :
    halfEvenInt q = f := by
  rw [halfEvenInt, hf, if_pos h]

theorem halfEvenInt_high (q : ℚ) (f : ℤ) (hf : ⌊q⌋ = f) (h : 1 / 2 < q - f) :
    halfEvenInt q = f + 1 := by
  rw [halfEvenInt, hf, if_neg (by linarith), if_pos h]

theorem halfEvenInt_intCast (z : ℤ) : halfEvenInt (z : ℚ) = z := by
  apply halfEvenInt_low
  · exact Int.floor_intCast z
  · norm_num

theorem roundq_intCast (n : ℕ) (z : ℤ) : roundq n (z : ℚ) = z := by
  rw [roundq]
  have h : ((z : ℚ) * 10 ^ n) = ((z * 10 ^ n : ℤ) : ℚ) := by push_cast; ring
  rw [h, halfEvenInt_intCast]
  push_cast
  rw [mul_div_assoc, div_self (by positivity), mul_one]

theorem roundq_zero (n : ℕ) : roundq n 0 = 0 := by
  simpa using roundq_intCast n 0

/-! ## Claim C3 -/

/-- C3 (amended): the aggregate total revenue is the sum of the UNROUNDED
per-model revenues, rounded once to 2 decimals (the source accumulates
`total_revenue += revenue` before rounding); the aggregate total tokens is
the sum of the leaderboard period totals (not the observed-token totals);
and the per-model list of the report is a permutation of the per-rank
records sorted descending by estimated revenue. -/
theorem claim_C3 (R : List RankedModel) (A : List (List Char × Activity))
    (P : List (List Char × PriceEntry)) :
    (calculate_revenue R A P).total_revenue =
      roundq 2 ((R.map (rawRevenue A P)).sum) ∧
    (calculate_revenue R A P).total_tokens =
      (R.map (fun m => m.total_tokens)).sum ∧
    (calculate_revenue R A P).models.Perm (R.map (mkRecord A P)) ∧
    List.Sorted revGe (calculate_revenue R A P).models := by
  have h := calcFold_spec A P R calcInit
  refine ⟨?_, ?_, ?_, ?_⟩
  · show roundq 2 (R.foldl (calcStep A P) calcInit).total_revenue = _
    rw [h.2.1]
    simp [calcInit]
  · show (R.foldl (calcStep A P) calcInit).total_tokens = _
    rw [h.2.2]
    simp [calcInit]
  · show (List.insertionSort revGe
      (R.foldl (calcStep A P) calcInit).models_result).Perm _
    rw [h.1]
    simp only [calcInit, List.nil_append]
    exact List.perm_insertionSort revGe _
  · exact List.sorted_insertionSort revGe _

/-- C3 counterexample: each model's unrounded revenue is 0.004, so each
rounded per-model revenue is 0.00 and the claim's value
(re-rounded sum of rounded revenues) is 0.00, but the source rounds the
sum of unrounded revenues: round(0.008, 2) = 0.01. -/
theorem claim_C3_counterexample :
    (calculate_revenue cexR3 cexA3 cexP3).total_revenue ≠
      roundq 2 (((calculate_revenue cexR3 cexA3 cexP3).models.map
        (fun r => r.estimated_revenue)).sum) := by
  have hraw_a : rawRevenue cexA3 cexP3 cexM3a = 1 / 250 := by
    show ((4 : ℕ) : ℚ) * (1 / 1000) + ((0 : ℕ) : ℚ) * 0 + ((0 : ℕ) : ℚ) * 0
      = 1 / 250
    norm_num
  have hraw_b : rawRevenue cexA3 cexP3 cexM3b = 1 / 250 := by
    show ((4 : ℕ) : ℚ) * (1 / 1000) + ((0 : ℕ) : ℚ) * 0 + ((0 : ℕ) : ℚ) * 0
      = 1 / 250
    norm_num
  have hfold := calcFold_spec cexA3 cexP3 cexR3 calcInit
  have hlhs : (calculate_revenue cexR3 cexA3 cexP3).total_revenue =
      roundq 2 (1 / 125) := by
    show roundq 2 (cexR3.foldl (calcStep cexA3 cexP3) calcInit).total_revenue = _
    rw [hfold.2.1]
    show roundq 2 ((0 : ℚ) + (cexR3.map (rawRevenue cexA3 cexP3)).sum) = _
    rw [show cexR3 = [cexM3a, cexM3b] from rfl, List.map_cons, List.map_cons,
      List.map_nil, hraw_a, hraw_b]
    norm_num
  have hround_low : roundq 2 ((1 : ℚ) / 250) = 0 := by
    rw [roundq]
    have hfl : ⌊((1 : ℚ) / 250) * 10 ^ 2⌋ = 0 := by norm_num
    rw [halfEvenInt_low _ 0 hfl (by norm_num)]
    norm_num
  have hround_high : roundq 2 ((1 : ℚ) / 125) = 1 / 100 := by
    rw [roundq]
    have hfl : ⌊((1 : ℚ) / 125) * 10 ^ 2⌋ = 0 := by norm_num
    rw [halfEvenInt_high _ 0 hfl (by norm_num)]
    norm_num
  have hest_a : (mkRecord cexA3 cexP3 cexM3a).estimated_revenue = 0 := by
    show roundq 2 (rawRevenue cexA3 cexP3 cexM3a) = 0
    rw [hraw_a, hround_low]
  have hest_b : (mkRecord cexA3 cexP3 cexM3b).estimated_revenue = 0 := by
    show roundq 2 (rawRevenue cexA3 cexP3 cexM3b) = 0
    rw [hraw_b, hround_low]
  have hperm : (calculate_revenue cexR3 cexA3 cexP3).models.Perm
      (cexR3.map (mkRecord cexA3 cexP3)) := by
    show (List.insertionSort revGe
      (cexR3.foldl (calcStep cexA3 cexP3) calcInit).models_result).Perm _
    rw [hfold.1]
    simp only [calcInit, List.nil_append]
    exact List.perm_insertionSort revGe _
  have hrhs : (((calculate_revenue cexR3 cexA3 cexP3).models.map
      (fun r => r.estimated_revenue)).sum : ℚ) = 0 := by
    rw [(hperm.map (fun r => r.estimated_revenue)).sum_eq]
    rw [show cexR3 = [cexM3a, cexM3b] from rfl]
    simp only [List.map_cons, List.map_nil, List.sum_cons, List.sum_nil]
    rw [hest_a, hest_b]
    norm_num
  rw [hlhs, hrhs, hround_high, roundq_zero]
  norm_num

/-! ## Claim C1 -/

/-- Zero-observed-evidence behaviour of one loop iteration: with observed
prompt+completion equal to zero the three ratios are zero and the revenue
reduces to the cached-token term. -/
theorem mkRecord_zero_evidence (A : List (List Char × Activity))
    (P : List (List Char × PriceEntry)) (m : RankedModel)
    (h0 : (activityOf A m.slug).prompt_tokens +
      (activityOf A m.slug).completion_tokens = 0) :
    (mkRecord A P m).prompt_ratio = 0 ∧
    (mkRecord A P m).completion_ratio = 0 ∧
    (mkRecord A P m).reasoning_ratio = 0 ∧
    (mkRecord A P m).estimated_revenue =
      roundq 2 (((activityOf A m.slug).cached_tokens : ℚ) *
        cacheReadPriceOf P m.slug) := by
  obtain ⟨hp, hc⟩ := Nat.add_eq_zero.mp h0
  refine ⟨?_, ?_, ?_, ?_⟩
  · show roundq 4 (if 0 < (activityOf A m.slug).prompt_tokens +
        (activityOf A m.slug).completion_tokens then
        ((activityOf A m.slug).prompt_tokens : ℚ) /
          (((activityOf A m.slug).prompt_tokens +
            (activityOf A m.slug).completion_tokens : ℕ) : ℚ)
      else 0) = 0
    rw [h0, if_neg (lt_irrefl 0), roundq_zero]
  · show roundq 4 (if 0 < (activityOf A m.slug).prompt_tokens +
        (activityOf A m.slug).completion_tokens then
        ((activityOf A m.slug).completion_tokens : ℚ) /
          (((activityOf A m.slug).prompt_tokens +
            (activityOf A m.slug).completion_tokens : ℕ) : ℚ)
      else 0) = 0
    rw [h0, if_neg (lt_irrefl 0), roundq_zero]
  · show roundq 4 (if 0 < (activityOf A m.slug).prompt_tokens +
        (activityOf A m.slug).completion_tokens then
        ((activityOf A m.slug).reasoning_tokens : ℚ) /
          (((activityOf A m.slug).prompt_tokens +
            (activityOf A m.slug).completion_tokens : ℕ) : ℚ)
      else 0) = 0
    rw [h0, if_neg (lt_irrefl 0), roundq_zero]
  · show roundq 2 (rawRevenue A P m) = _
    congr 1
    show ((activityOf A m.slug).prompt_tokens : ℚ) * promptPriceOf P m.slug +
      ((activityOf A m.slug).completion_tokens : ℚ) * completionPriceOf P m.slug +
      ((activityOf A m.slug).cached_tokens : ℚ) * cacheReadPriceOf P m.slug = _
    rw [hp, hc]
    push_cast
    ring

/-- C1 (amended): for every ranked model whose observed-token total
(prompt + completion from its resolved activity) is zero, the report still
contains a record for it with the leaderboard token total unchanged and all
three ratios equal to 0.0 — but its estimated revenue is
`round(cached_tokens * cache_read_price, 2)`, which is 0.0 whenever its
cached-token count is zero (in particular when the model has no activity
record at all), yet can be positive when cached tokens were observed. -/
theorem claim_C1 (R : List RankedModel) (A : List (List Char × Activity))
    (P : List (List Char × PriceEntry)) (m : RankedModel) (hm : m ∈ R)
    (h0 : (activityOf A m.slug).prompt_tokens +
      (activityOf A m.slug).completion_tokens = 0) :
    ∃ r ∈ (calculate_revenue R A P).models,
      r.rank = m.rank ∧ r.slug = m.slug ∧ r.name = m.name ∧
      r.total_tokens = m.total_tokens ∧
      r.prompt_ratio = 0 ∧ r.completion_ratio = 0 ∧ r.reasoning_ratio = 0 ∧
      r.estimated_revenue =
        roundq 2 (((activityOf A m.slug).cached_tokens : ℚ) *
          cacheReadPriceOf P m.slug) := by
  obtain ⟨h1, h2, h3, h4⟩ := mkRecord_zero_evidence A P m h0
  exact ⟨mkRecord A P m, mem_models_of_mem A P R m hm,
    rfl, rfl, rfl, rfl, h1, h2, h3, h4⟩

/-- C1 counterexample: a model with observed-token total 0 but 500 cached
tokens at cache-read price 1 gets estimated revenue 500, not 0.0. -/
theorem claim_C1_counterexample :
    ((activityOf cexA1 cexM1.slug).prompt_tokens +
      (activityOf cexA1 cexM1.slug).completion_tokens = 0) ∧
    ∃ r ∈ (calculate_revenue cexR1 cexA1 cexP1).models,
      r.slug = cexM1.slug ∧ r.total_tokens = cexM1.total_tokens ∧
      r.estimated_revenue ≠ 0 := by
  refine ⟨rfl, mkRecord cexA1 cexP1 cexM1,
    mem_models_of_mem cexA1 cexP1 cexR1 cexM1 (List.mem_singleton.mpr rfl),
    rfl, rfl, ?_⟩
  have hraw : rawRevenue cexA1 cexP1 cexM1 = 500 := by
    show ((0 : ℕ) : ℚ) * 0 + ((0 : ℕ) : ℚ) * 0 + ((500 : ℕ) : ℚ) * 1 = 500
    norm_num
  show roundq 2 (rawRevenue cexA1 cexP1 cexM1) ≠ 0
  rw [hraw, show (500 : ℚ) = ((500 : ℤ) : ℚ) by norm_num, roundq_intCast]
  norm_num

/-- Witness for C1 (amended) at a model with no activity record: ratios 0,
leaderboard total intact, and estimated revenue
`round(0 * cache_read_price, 2)`. -/
theorem claim_C1_witness :
    ∃ r ∈ (calculate_revenue [cexM1w] cexA1 cexP1).models,
      r.rank = cexM1w.rank ∧ r.slug = cexM1w.slug ∧ r.name = cexM1w.name ∧
      r.total_tokens = cexM1w.total_tokens ∧
      r.prompt_ratio = 0 ∧ r.completion_ratio = 0 ∧ r.reasoning_ratio = 0 ∧
      r.estimated_revenue =
        roundq 2 (((activityOf cexA1 cexM1w.slug).cached_tokens : ℚ) *
          cacheReadPriceOf cexP1 cexM1w.slug) :=
  claim_C1 [cexM1w] cexA1 cexP1 cexM1w (List.mem_singleton.mpr rfl) rfl

/-! ## Daily extraction dictionary lemmas -/

theorem dlookup_bumpDaily (e : DailyEntry) (d : List Char) :
    ∀ m : List (List Char × DayRec),
      dlookup (bumpDaily m e) d =
        if e.date = d then
          some (addDailyEntry ((dlookup m d).getD zeroDay) e)
        else dlookup m d := by
  intro m
  induction m with
  | nil =>
    by_cases h : e.date = d
    · simp [bumpDaily, dlookup, h]
    · simp [bumpDaily, dlookup, h]
  | cons kv t ih =>
    obtain ⟨k, v⟩ := kv
    by_cases h1 : k = e.date
    · by_cases h2 : e.date = d
      · simp [bumpDaily, dlookup, h1, h2]
      · simp [bumpDaily, dlookup, h1, h2]
    · by_cases h3 : k = d
      · have h2 : ¬ (e.date = d) := fun hh => h1 (h3.trans hh.symm)
        have h4 : ¬ (d = e.date) := fun hh => h2 hh.symm
        simp [bumpDaily, dlookup, h1, h3, h2, h4]
      · simp [bumpDaily, dlookup, h1, h3, ih]

theorem dlookup_foldl_bumpDaily_some (d : List Char) :
    ∀ (es : List DailyEntry) (m : List (List Char × DayRec)) (r : DayRec),
      dlookup m d = some r →
      dlookup (es.foldl bumpDaily m) d =
        some ((es.filter (fun e => e.date = d)).foldl addDailyEntry r)
  | [], m, r, hm => by simpa using hm
  | e :: es, m, r, hm => by
    rw [List.foldl_cons]
    by_cases h : e.date = d
    · have hm2 : dlookup (bumpDaily m e) d =
          some (addDailyEntry r e) := by
        rw [dlookup_bumpDaily, if_pos h, hm]
        rfl
      rw [dlookup_foldl_bumpDaily_some d es (bumpDaily m e) _ hm2]
      simp [List.filter_cons, h]
    · have hm2 : dlookup (bumpDaily m e) d = some r := by
        rw [dlookup_bumpDaily, if_neg h, hm]
      rw [dlookup_foldl_bumpDaily_some d es (bumpDaily m e) _ hm2]
      simp [List.filter_cons, h]

theorem dlookup_foldl_bumpDaily_none (d : List Char) :
    ∀ (es : List DailyEntry) (m : List (List Char × DayRec)),
      dlookup m d = none →
      dlookup (es.foldl bumpDaily m) d =
        if (es.filter (fun e => e.date = d)) = [] then none
        else some ((es.filter (fun e => e.date = d)).foldl addDailyEntry zeroDay)
  | [], m, hm => by simpa using hm
  | e :: es, m, hm => by
    rw [List.foldl_cons]
    by_cases h : e.date = d
    · have hm2 : dlookup (bumpDaily m e) d =
          some (addDailyEntry zeroDay e) := by
        rw [dlookup_bumpDaily, if_pos h, hm]
        rfl
      rw [dlookup_foldl_bumpDaily_some d es (bumpDaily m e) _ hm2]
      have hcons : (e :: es).filter (fun e => e.date = d) =
          e :: es.filter (fun e => e.date = d) := by
        simp [List.filter_cons, h]
      rw [hcons, if_neg (by simp)]
      simp
    · have hm2 : dlookup (bumpDaily m e) d = none := by
        rw [dlookup_bumpDaily, if_neg h, hm]
      rw [dlookup_foldl_bumpDaily_none d es (bumpDaily m e) hm2]
      have hcons : (e :: es).filter (fun e => e.date = d) =
          es.filter (fun e => e.date = d) := by
        simp [List.filter_cons, h]
      rw [hcons]

theorem dlookup_bumpCached (p : List Char × ℕ) (d : List Char) :
    ∀ m : List (List Char × ℕ),
      dlookup (bumpCached m p) d =
        if p.1 = d then some (((dlookup m d).getD 0) + p.2)
        else dlookup m d := by
  obtain ⟨a, c⟩ := p
  intro m
  induction m with
  | nil =>
    by_cases h : a = d
    · simp [bumpCached, dlookup, h]
    · simp [bumpCached, dlookup, h]
  | cons kv t ih =>
    obtain ⟨k, v⟩ := kv
    by_cases h1 : k = a
    · by_cases h2 : a = d
      · simp [bumpCached, dlookup, h1, h2]
      · simp [bumpCached, dlookup, h1, h2]
    · by_cases h3 : k = d
      · have h2 : ¬ (a = d) := fun hh => h1 (h3.trans hh.symm)
        have h4 : ¬ (d = a) := fun hh => h2 hh.symm
        simp [bumpCached, dlookup, h1, h3, h2, h4]
      · simp [bumpCached, dlookup, h1, h3, ih]

theorem dlookup_foldl_bumpCached_some (d : List Char) :
    ∀ (ps : List (List Char × ℕ)) (m : List (List Char × ℕ)) (v : ℕ),
      dlookup m d = some v →
      dlookup (ps.foldl bumpCached m) d =
        some (v + ((ps.filter (fun q => q.1 = d)).map Prod.snd).sum)
  | [], m, v, hm => by simpa using hm
  | p :: ps, m, v, hm => by
    rw [List.foldl_cons]
    by_cases h : p.1 = d
    · have hm2 : dlookup (bumpCached m p) d = some (v + p.2) := by
        rw [dlookup_bumpCached, if_pos h, hm]
        rfl
      rw [dlookup_foldl_bumpCached_some d ps (bumpCached m p) _ hm2]
      have hcons : (p :: ps).filter (fun q => q.1 = d) =
          p :: ps.filter (fun q => q.1 = d) := by
        simp [List.filter_cons, h]
      rw [hcons]
      simp [Nat.add_assoc]
    · have hm2 : dlookup (bumpCached m p) d = some v := by
        rw [dlookup_bumpCached, if_neg h, hm]
      rw [dlookup_foldl_bumpCached_some d ps (bumpCached m p) _ hm2]
      have hcons : (p :: ps).filter (fun q => q.1 = d) =
          ps.filter (fun q => q.1 = d) := by
        simp [List.filter_cons, h]
      rw [hcons]

theorem dlookup_foldl_bumpCached_none (d : List Char) :
    ∀ (ps : List (List Char × ℕ)) (m : List (List Char × ℕ)),
      dlookup m d = none →
      dlookup (ps.foldl bumpCached m) d =
        if (ps.filter (fun q => q.1 = d)) = [] then none
        else some (((ps.filter (fun q => q.1 = d)).map Prod.snd).sum)
  | [], m, hm => by simpa using hm
  | p :: ps, m, hm => by
    rw [List.foldl_cons]
    by_cases h : p.1 = d
    · have hm2 : dlookup (bumpCached m p) d = some (0 + p.2) := by
        rw [dlookup_bumpCached, if_pos h, hm]
        rfl
      rw [dlookup_foldl_bumpCached_some d ps (bumpCached m p) _ hm2]
      have hcons : (p :: ps).filter (fun q => q.1 = d) =
          p :: ps.filter (fun q => q.1 = d) := by
        simp [List.filter_cons, h]
      rw [hcons, if_neg (by simp)]
      simp [Nat.add_assoc]
    · have hm2 : dlookup (bumpCached m p) d = none := by
        rw [dlookup_bumpCached, if_neg h, hm]
      rw [dlookup_foldl_bumpCached_none d ps (bumpCached m p) hm2]
      have hcons : (p :: ps).filter (fun q => q.1 = d) =
          ps.filter (fun q => q.1 = d) := by
        simp [List.filter_cons, h]
      rw [hcons]

theorem dlookup_setCached (p : List Char × ℕ) (d : List Char) :
    ∀ m : List (List Char × DayRec),
      dlookup (setCached m p) d =
        if p.1 = d then
          (dlookup m d).map (fun r => { r with cached := p.2 })
        else dlookup m d := by
  obtain ⟨a, c⟩ := p
  intro m
  induction m with
  | nil =>
    by_cases h : a = d <;> simp [setCached, dlookup, h]
  | cons kv t ih =>
    obtain ⟨k, r⟩ := kv
    by_cases h1 : k = a
    · by_cases h2 : a = d
      · simp [setCached, dlookup, h1, h2]
      · simp [setCached, dlookup, h1, h2]
    · by_cases h3 : k = d
      · have h2 : ¬ (a = d) := fun hh => h1 (h3.trans hh.symm)
        have h4 : ¬ (d = a) := fun hh => h2 hh.symm
        simp [setCached, dlookup, h1, h3, h2, h4]
      · simp [setCached, dlookup, h1, h3, ih]

theorem dlookup_eq_none_of_not_mem {β : Type} (d : List Char) :
    ∀ m : List (List Char × β), d ∉ m.map Prod.fst → dlookup m d = none := by
  intro m
  induction m with
  | nil => intro _; rfl
  | cons kv t ih =>
    obtain ⟨k, v⟩ := kv
    intro h
    have hk : ¬ (k = d) := fun hh =>
      h (List.mem_map.mpr ⟨(k, v), List.mem_cons_self _ _, hh⟩)
    have ht : d ∉ t.map Prod.fst := fun hh => by
      rcases List.mem_map.mp hh with ⟨a, ha, hfa⟩
      exact h (List.mem_map.mpr ⟨a, List.mem_cons_of_mem _ ha, hfa⟩)
    simp only [dlookup]
    rw [if_neg hk]
    exact ih ht

theorem dlookup_foldl_setCached (d : List Char) :
    ∀ (cb : List (List Char × ℕ)) (m : List (List Char × DayRec)),
      (cb.map Prod.fst).Nodup →
      dlookup (cb.foldl setCached m) d =
        (dlookup m d).map (fun r =>
          match dlookup cb d with
          | some c => { r with cached := c }
          | none => r)
  | [], m, _ => by
    cases h : dlookup m d <;> simp [dlookup, h]
  | p :: cb, m, hnd => by
    rw [List.foldl_cons]
    obtain ⟨k, c⟩ := p
    have hnd1 : (k :: cb.map Prod.fst).Nodup := by simpa using hnd
    have hnd2 : (cb.map Prod.fst).Nodup := (List.nodup_cons.mp hnd1).2
    have hpn : k ∉ cb.map Prod.fst := (List.nodup_cons.mp hnd1).1
    rw [dlookup_foldl_setCached d cb (setCached m (k, c)) hnd2]
    by_cases h : k = d
    · subst h
      have hcb : dlookup cb k = none := dlookup_eq_none_of_not_mem k cb hpn
      rw [dlookup_setCached]
      cases hm : dlookup m k <;> simp [dlookup, hcb, hm]
    · rw [dlookup_setCached, if_neg (by simpa using h)]
      cases hm : dlookup m d <;>
        cases hcb : dlookup cb d <;>
          simp [dlookup, hm, hcb, h]

theorem keys_bumpCached (p : List Char × ℕ) :
    ∀ m : List (List Char × ℕ),
      (bumpCached m p).map Prod.fst =
        if p.1 ∈ m.map Prod.fst then m.map Prod.fst
        else m.map Prod.fst ++ [p.1] := by
  obtain ⟨a, c⟩ := p
  intro m
  induction m with
  | nil => simp [bumpCached]
  | cons kv t ih =>
    obtain ⟨k, v⟩ := kv
    by_cases h1 : k = a
    · simp [bumpCached, h1]
    · have h2 : ¬ (a = k) := fun hh => h1 hh.symm
      by_cases h3 : a ∈ t.map Prod.fst <;>
        simp [bumpCached, h1, h2, h3, ih]

theorem nodup_keys_foldl_bumpCached :
    ∀ (ps : List (List Char × ℕ)) (m : List (List Char × ℕ)),
      (m.map Prod.fst).Nodup → ((ps.foldl bumpCached m).map Prod.fst).Nodup
  | [], _, hm => hm
  | p :: ps, m, hm => by
    rw [List.foldl_cons]
    apply nodup_keys_foldl_bumpCached ps
    rw [keys_bumpCached]
    by_cases h : p.1 ∈ m.map Prod.fst
    · rwa [if_pos h]
    · rw [if_neg h]
      simp [List.nodup_append, hm, h]

theorem foldl_addDailyEntry_eq :
    ∀ (es : List DailyEntry) (r : DayRec),
      es.foldl addDailyEntry r =
        ⟨r.prompt + (es.map DailyEntry.prompt).sum,
         r.completion + (es.map DailyEntry.completion).sum,
         r.reasoning + (es.map DailyEntry.reasoning).sum,
         r.cached,
         r.count + (es.map DailyEntry.count).sum⟩
  | [], r => by simp
  | e :: es, r => by
    rw [List.foldl_cons, foldl_addDailyEntry_eq es (addDailyEntry r e)]
    simp [addDailyEntry, Nat.add_assoc]

/-- Characterisation of one date's entry in the `_extract_daily_data`
result: the field-wise sums of the first-pattern entries for that date,
with the cached field the sum of the second-pattern entries for that date
(zero when there are none), and no entry at all for a date with no
first-pattern match. -/
theorem extract_daily_lookup (html : List Char) (d : List Char) :
    dlookup (extract_daily_data html) d =
      if (findDaily html).filter (fun e => e.date = d) = [] then none
      else some
        ⟨(((findDaily html).filter (fun e => e.date = d)).map DailyEntry.prompt).sum,
         (((findDaily html).filter (fun e => e.date = d)).map DailyEntry.completion).sum,
         (((findDaily html).filter (fun e => e.date = d)).map DailyEntry.reasoning).sum,
         (((findCached html).filter (fun q => q.1 = d)).map Prod.snd).sum,
         (((findDaily html).filter (fun e => e.date = d)).map DailyEntry.count).sum⟩ := by
  by_cases hD : findDaily html = []
  · simp [extract_daily_data, hD, dlookup]
  · simp only [extract_daily_data, if_neg hD]
    have hnodup : (((findCached html).foldl bumpCached []).map Prod.fst).Nodup :=
      nodup_keys_foldl_bumpCached _ [] (by simp)
    rw [dlookup_foldl_setCached d _ _ hnodup]
    rw [dlookup_foldl_bumpDaily_none d (findDaily html) [] rfl]
    by_cases hF : (findDaily html).filter (fun e => e.date = d) = []
    · rw [if_pos hF, if_pos hF]
      rfl
    · rw [if_neg hF, if_neg hF]
      rw [foldl_addDailyEntry_eq]
      rw [dlookup_foldl_bumpCached_none d (findCached html) [] rfl]
      by_cases hC : (findCached html).filter (fun q => q.1 = d) = []
      · rw [if_pos hC]
        simp [zeroDay, hC]
      · rw [if_neg hC]
        simp [zeroDay]

/-! ## Claims C9 and C8 -/

/-- C9: the DailyRecord emitted for a date is the field-wise sum of all
first-pattern entries sharing that date (prompt, completion, reasoning,
count), with its cached field the sum of the second-pattern cached entries
for the same date — which is 0 when the date has no second-pattern entry —
and no record is emitted for a date with no first-pattern entry. -/
theorem claim_C9 (html : List Char) (d : List Char) :
    dlookup (extract_daily_data html) d =
      if (findDaily html).filter (fun e => e.date = d) = [] then none
      else some
        ⟨(((findDaily html).filter (fun e => e.date = d)).map DailyEntry.prompt).sum,
         (((findDaily html).filter (fun e => e.date = d)).map DailyEntry.completion).sum,
         (((findDaily html).filter (fun e => e.date = d)).map DailyEntry.reasoning).sum,
         (((findCached html).filter (fun q => q.1 = d)).map Prod.snd).sum,
         (((findDaily html).filter (fun e => e.date = d)).map DailyEntry.count).sum⟩ :=
  extract_daily_lookup html d

set_option maxRecDepth 100000 in
/-- C8 counterexample: the extractor copies the counts as found, so a page
whose entry reports more reasoning than completion tokens produces a
DailyRecord with `completion_tokens < reasoning_tokens`. -/
theorem claim_C8_counterexample :
    dlookup (extract_daily_data cexHtml8) ("2025-01-02".toList) =
      some ⟨1, 5, 10, 0, 1⟩ ∧ ¬ ((10 : ℕ) ≤ 5) := by
  constructor
  · decide
  · decide

/-- C8 (amended): the extractor preserves, but does not enforce, the
`completion ≥ reasoning` convention: whenever every matched raw entry of
the page satisfies `reasoning ≤ completion`, every aggregated DailyRecord
does too. -/
theorem claim_C8 (html : List Char)
    (h : ∀ e ∈ findDaily html, e.reasoning ≤ e.completion)
    (d : List Char) (r : DayRec)
    (hr : dlookup (extract_daily_data html) d = some r) :
    r.reasoning ≤ r.completion := by
  rw [extract_daily_lookup] at hr
  by_cases hF : (findDaily html).filter (fun e => e.date = d) = []
  · rw [if_pos hF] at hr
    exact absurd hr (by simp)
  · rw [if_neg hF] at hr
    injection hr with hr
    subst hr
    apply List.sum_le_sum
    intro e he
    exact h e (List.mem_of_mem_filter he)

set_option maxRecDepth 100000 in
/-- Witness for C8 (amended) at a concrete page whose entries respect the
convention. -/
theorem claim_C8_witness :
    dlookup (extract_daily_data cexHtml8w) ("2025-01-03".toList) =
      some ⟨2, 10, 4, 0, 1⟩ ∧ (4 : ℕ) ≤ 10 :=
  ⟨by decide,
   claim_C8 cexHtml8w (by decide) ("2025-01-03".toList) ⟨2, 10, 4, 0, 1⟩ (by decide)⟩

/-! ## Chart extractor lemmas -/

theorem strLe_total : ∀ a b : List Char, strLe a b = true ∨ strLe b a = true
  | [], _ => Or.inl rfl
  | _ :: _, [] => Or.inr rfl
  | a :: s, b :: t => by
    by_cases h : a = b
    · subst h
      rcases strLe_total s t with h2 | h2
      · left
        simp [strLe, h2]
      · right
        simp [strLe, h2]
    · rcases lt_or_gt_of_ne h with hlt | hgt
      · left
        simp [strLe, h, hlt]
      · right
        have h2 : ¬ (b = a) := fun hh => h hh.symm
        simp [strLe, h2, hgt]

theorem strLe_trans : ∀ a b c : List Char,
    strLe a b = true → strLe b c = true → strLe a c = true
  | [], _, _, _, _ => rfl
  | _ :: _, [], _, hab, _ => by simp [strLe] at hab
  | _ :: _, _ :: _, [], _, hbc => by simp [strLe] at hbc
  | a :: s, b :: t, c :: u, hab, hbc => by
    simp only [strLe] at hab hbc ⊢
    by_cases h1 : a = b <;> by_cases h2 : b = c
    · have h3 : a = c := h1.trans h2
      rw [if_pos h1] at hab
      rw [if_pos h2] at hbc
      rw [if_pos h3]
      exact strLe_trans s t u hab hbc
    · rw [if_neg h2] at hbc
      have hbc2 : b < c := of_decide_eq_true hbc
      have h3 : ¬ (a = c) := fun hh => h2 (h1.symm.trans hh)
      rw [if_neg h3]
      have h4 : a < c := by rw [h1]; exact hbc2
      exact decide_eq_true h4
    · rw [if_neg h1] at hab
      have hab2 : a < b := of_decide_eq_true hab
      have h3 : ¬ (a = c) := fun hh => h1 (hh.trans h2.symm)
      rw [if_neg h3]
      have h4 : a < c := by rw [← h2]; exact hab2
      exact decide_eq_true h4
    · rw [if_neg h1] at hab
      rw [if_neg h2] at hbc
      have hab2 : a < b := of_decide_eq_true hab
      have hbc2 : b < c := of_decide_eq_true hbc
      have h3 : a < c := lt_trans hab2 hbc2
      have h4 : ¬ (a = c) := fun hh => absurd h3 (by rw [hh]; exact lt_irrefl c)
      rw [if_neg h4]
      exact decide_eq_true h3

instance : IsTotal ChartEntry weekLe :=
  ⟨fun x y => strLe_total x.week_start y.week_start⟩

instance : IsTrans ChartEntry weekLe :=
  ⟨fun x y z => strLe_trans x.week_start y.week_start z.week_start⟩

theorem foldl_pickLonger_stay :
    ∀ (l : List (List ChartEntry)) (e : List ChartEntry),
      (∀ y ∈ l, y.length ≤ e.length) → l.foldl pickLonger e = e
  | [], _, _ => rfl
  | y :: l, e, h => by
    rw [List.foldl_cons]
    have hy : y.length ≤ e.length := h y (List.mem_cons_self y l)
    have hpick : pickLonger e y = e := by
      rw [pickLonger, if_neg (by omega)]
    rw [hpick]
    exact foldl_pickLonger_stay l e (fun z hz => h z (List.mem_cons_of_mem _ hz))

theorem foldl_pickLonger_mem :
    ∀ (l : List (List ChartEntry)) (acc : List ChartEntry),
      l.foldl pickLonger acc = acc ∨ l.foldl pickLonger acc ∈ l
  | [], _ => Or.inl rfl
  | e :: l, acc => by
    rw [List.foldl_cons]
    rcases foldl_pickLonger_mem l (pickLonger acc e) with h | h
    · rw [h, pickLonger]
      by_cases hc : acc.length < e.length
      · rw [if_pos hc]
        exact Or.inr (List.mem_cons_self e l)
      · rw [if_neg hc]
        exact Or.inl rfl
    · exact Or.inr (List.mem_cons_of_mem _ h)

theorem selectBest_cases (l : List (List ChartEntry)) :
    selectBest l = [] ∨ selectBest l ∈ l :=
  foldl_pickLonger_mem l []

theorem selectBest_first_max (l1 : List (List ChartEntry)) (e : List ChartEntry)
    (l2 : List (List ChartEntry)) (h1 : ∀ x ∈ l1, x.length < e.length)
    (h3 : 0 < e.length) (h2 : ∀ y ∈ l2, y.length ≤ e.length) :
    selectBest (l1 ++ e :: l2) = e := by
  rw [selectBest, List.foldl_append, List.foldl_cons]
  have hlt : (l1.foldl pickLonger []).length < e.length := by
    rcases foldl_pickLonger_mem l1 [] with h | h
    · rw [h]
      simpa using h3
    · exact h1 _ h
  have hpick : pickLonger (l1.foldl pickLonger []) e = e := by
    rw [pickLonger, if_pos hlt]
  rw [hpick]
  exact foldl_pickLonger_stay l2 e h2

theorem foldl_scrapeStep_eq :
    ∀ (tags : List (List Char)) (acc : List ChartEntry),
      tags.foldl (fun best s =>
        if s.length < 1000 then best else pickLonger best (scriptEntries s)) acc =
      ((tags.filter (fun s => ¬ s.length < 1000)).map scriptEntries).foldl
        pickLonger acc
  | [], _ => rfl
  | s :: tags, acc => by
    rw [List.foldl_cons]
    by_cases h : s.length < 1000
    · rw [if_pos h]
      have hf : (s :: tags).filter (fun s => ¬ s.length < 1000) =
          tags.filter (fun s => ¬ s.length < 1000) := by
        simp [List.filter_cons, h]
      rw [hf]
      exact foldl_scrapeStep_eq tags acc
    · rw [if_neg h]
      have hf : (s :: tags).filter (fun s => ¬ s.length < 1000) =
          s :: tags.filter (fun s => ¬ s.length < 1000) := by
        simp [List.filter_cons, h]
      rw [hf, List.map_cons, List.foldl_cons]
      exact foldl_scrapeStep_eq tags (pickLonger acc (scriptEntries s))

theorem scrape_eq_selectBest (html : List Char) :
    scrape_rankings_history html =
      List.insertionSort weekLe (selectBest
        (((scriptTags html).filter (fun s => ¬ s.length < 1000)).map
          scriptEntries)) := by
  rw [scrape_rankings_history, selectBest]
  rw [foldl_scrapeStep_eq]

theorem scriptEntries_eq_nil_of_no_slash (s : List Char)
    (h : ∀ dp ∈ rawChartEntries (unescape s), ∀ p ∈ dp.2, hasSlash p.1 = false) :
    scriptEntries s = [] := by
  rw [scriptEntries]
  apply List.filterMap_eq_nil_iff.mpr
  intro dp hdp
  by_cases hnil : dp.2 = []
  · simp [hnil]
  · rw [if_neg hnil]
    have hany : dp.2.any (fun p => hasSlash p.1) = false := by
      rw [List.any_eq_false]
      intro p hp
      simp [h dp hdp p hp]
    rw [hany]
    simp

theorem sum_dictSet_le (k : List Char) (v : ℤ) :
    ∀ m : List (List Char × ℤ), (∀ x ∈ m.map Prod.snd, 0 ≤ x) →
      ((dictSet m k v).map Prod.snd).sum ≤ (m.map Prod.snd).sum + v
  | [], _ => by simp [dictSet]
  | (a, b) :: t, h => by
    by_cases hak : a = k
    · simp only [dictSet, if_pos hak, List.map_cons, List.sum_cons]
      have hb : 0 ≤ b := h b (by simp)
      omega
    · simp only [dictSet, if_neg hak, List.map_cons, List.sum_cons]
      have ht := sum_dictSet_le k v t (fun x hx => h x (by simp [hx]))
      omega

theorem dictSet_vals_nonneg (k : List Char) (v : ℤ) (hv : 0 ≤ v) :
    ∀ m : List (List Char × ℤ), (∀ x ∈ m.map Prod.snd, 0 ≤ x) →
      ∀ x ∈ (dictSet m k v).map Prod.snd, 0 ≤ x
  | [], _ => by
    simp only [dictSet, List.map_cons, List.map_nil]
    intro x hx
    rcases List.mem_cons.mp hx with rfl | hx
    · exact hv
    · simp at hx
  | (a, b) :: t, h => by
    by_cases hak : a = k
    · simp only [dictSet, if_pos hak, List.map_cons]
      intro x hx
      rcases List.mem_cons.mp hx with rfl | hx
      · exact hv
      · exact h x (by simp [hx])
    · simp only [dictSet, if_neg hak, List.map_cons]
      intro x hx
      rcases List.mem_cons.mp hx with heq | hx
      · rw [heq]
        exact h b (by simp)
      · exact dictSet_vals_nonneg k v hv t (fun y hy => h y (by simp [hy])) x hx

theorem buildChart_invariant :
    ∀ (pairs : List (List Char × ℕ)) (models : List (List Char × ℤ))
      (others total : ℤ),
      (∀ x ∈ models.map Prod.snd, 0 ≤ x) → 0 ≤ others →
      (models.map Prod.snd).sum + others ≤ total →
      (∀ x ∈ (pairs.foldl buildChartStep (models, others, total)).1.map Prod.snd,
        0 ≤ x) ∧
      0 ≤ (pairs.foldl buildChartStep (models, others, total)).2.1 ∧
      ((pairs.foldl buildChartStep (models, others, total)).1.map Prod.snd).sum +
        (pairs.foldl buildChartStep (models, others, total)).2.1 ≤
        (pairs.foldl buildChartStep (models, others, total)).2.2
  | [], _, _, _, hm, ho, ht => ⟨hm, ho, ht⟩
  | p :: pairs, models, others, total, hm, ho, ht => by
    rw [List.foldl_cons]
    by_cases hk : p.1 = ("Others".toList)
    · have hstep : buildChartStep (models, others, total) p =
          (models, (p.2 : ℤ), total + (p.2 : ℤ)) := by
        simp only [buildChartStep]
        rw [if_pos hk]
      rw [hstep]
      apply buildChart_invariant pairs models ((p.2 : ℤ)) (total + (p.2 : ℤ)) hm
        (Int.natCast_nonneg p.2)
      omega
    · have hstep : buildChartStep (models, others, total) p =
          (dictSet models p.1 (p.2 : ℤ), others, total + (p.2 : ℤ)) := by
        simp only [buildChartStep]
        rw [if_neg hk]
      rw [hstep]
      apply buildChart_invariant pairs _ others (total + (p.2 : ℤ))
        (dictSet_vals_nonneg p.1 _ (Int.natCast_nonneg p.2) models hm) ho
      have hs := sum_dictSet_le p.1 (p.2 : ℤ) models hm
      omega

theorem buildEntry_inv (date : List Char) (pairs : List (List Char × ℕ)) :
    0 ≤ (buildEntry date pairs).others ∧
    ((buildEntry date pairs).models.map Prod.snd).sum +
      (buildEntry date pairs).others ≤ (buildEntry date pairs).total := by
  have h := buildChart_invariant pairs [] 0 0 (by simp) le_rfl (by simp)
  exact ⟨h.2.1, h.2.2⟩

theorem mem_scrape_entries (html : List Char) (e : ChartEntry)
    (he : e ∈ scrape_rankings_history html) : ∃ s, e ∈ scriptEntries s := by
  rw [scrape_eq_selectBest, List.mem_insertionSort] at he
  rcases selectBest_cases
      (((scriptTags html).filter (fun s => ¬ s.length < 1000)).map scriptEntries)
    with h | h
  · rw [h] at he
    simp at he
  · rcases List.mem_map.mp h with ⟨s, _, hs⟩
    exact ⟨s, hs ▸ he⟩

theorem scriptEntries_mem (s : List Char) (e : ChartEntry)
    (he : e ∈ scriptEntries s) : ∃ date pairs, e = buildEntry date pairs := by
  rw [scriptEntries] at he
  rcases List.mem_filterMap.mp he with ⟨dp, _, hdp⟩
  by_cases hnil : dp.2 = []
  · rw [if_pos hnil] at hdp
    exact absurd hdp (by simp)
  · rw [if_neg hnil] at hdp
    by_cases hany : dp.2.any (fun p => hasSlash p.1) = true
    · rw [if_pos hany] at hdp
      injection hdp with hdp
      exact ⟨dp.1, dp.2, hdp.symm⟩
    · rw [if_neg hany] at hdp
      exact absurd hdp (by simp)

/-! ## Claim C4 -/

/-- C4 (amended): for every page text and every parsed weekly entry, the
others bucket is non-negative and `sum(models) + others ≤ total`; the
stronger equality `total = sum(models) + others` holds only when no model
key repeats within the entry (each pair's value counts toward `total`, but
a repeated key overwrites its slot in the models map). -/
theorem claim_C4 (html : List Char) (e : ChartEntry)
    (he : e ∈ scrape_rankings_history html) :
    0 ≤ e.others ∧ (e.models.map Prod.snd).sum + e.others ≤ e.total := by
  rcases mem_scrape_entries html e he with ⟨s, hs⟩
  rcases scriptEntries_mem s e hs with ⟨date, pairs, rfl⟩
  exact buildEntry_inv date pairs

/-! Padding-skip lemmas: evaluating the scanners over the 990-character
padding symbolically (the padding contains none of the scanned symbols),
so that every concrete evaluation below only walks the 39-character
marker. -/

theorem isPrefixOf_cons_false (p c : Char) (pt t : List Char) (h : ¬ p = c) :
    ((p :: pt).isPrefixOf (c :: t)) = false := by
  simp only [List.isPrefixOf, Bool.and_eq_false_imp]
  intro hh
  exact absurd (eq_of_beq hh) h

theorem splitAtSub_all_ne (p : Char) (pt : List Char) :
    ∀ (content rest : List Char), (∀ c ∈ content, ¬ c = p) →
      splitAtSub (p :: pt) (content ++ rest) =
        (splitAtSub (p :: pt) rest).map (fun pr => (content ++ pr.1, pr.2))
  | [], rest, _ => by
    cases h : splitAtSub (p :: pt) rest <;> simp [h]
  | c :: content, rest, h => by
    have hc : ¬ p = c := fun hh => h c (List.mem_cons_self c content) hh.symm
    have hpre := isPrefixOf_cons_false p c pt (content ++ rest) hc
    rw [List.cons_append, splitAtSub]
    rw [if_neg (by simp [hpre])]
    rw [splitAtSub_all_ne p pt content rest
      (fun x hx => h x (List.mem_cons_of_mem _ hx))]
    cases hr : splitAtSub (p :: pt) rest <;> simp [hr]

theorem replaceSubGo_all_ne (p : Char) (pt rep : List Char) :
    ∀ (fuel : ℕ) (s : List Char), (∀ c ∈ s, ¬ c = p) →
      replaceSubGo (p :: pt) rep fuel s = s
  | 0, s, _ => rfl
  | _ + 1, [], _ => rfl
  | fuel + 1, c :: t, h => by
    have hc : ¬ p = c := fun hh => h c (List.mem_cons_self c t) hh.symm
    have hpre := isPrefixOf_cons_false p c pt t hc
    rw [replaceSubGo, if_neg (by simp [hpre])]
    rw [replaceSubGo_all_ne p pt rep fuel t
      (fun x hx => h x (List.mem_cons_of_mem _ hx))]

theorem matchMarker_cons_none (c : Char) (t : List Char) (h : ¬ c = '"') :
    matchMarker (c :: t) = none := by
  have hpre := isPrefixOf_cons_false '"' c ("x\":\"".toList) t
    (fun hh => h hh.symm)
  have hlit : matchLit ("\"x\":\"".toList) (c :: t) = none := by
    rw [matchLit, if_neg]
    intro hh
    rw [show ("\"x\":\"".toList) = '"' :: ("x\":\"".toList) from rfl] at hh
    rw [hpre] at hh
    exact Bool.false_ne_true hh
  rw [matchMarker, hlit]

theorem findMarkersGo_repZ :
    ∀ (n fuel : ℕ) (rest : List Char),
      findMarkersGo (n + fuel) (List.replicate n 'z' ++ rest) =
        findMarkersGo fuel rest
  | 0, fuel, rest => by simp
  | n + 1, fuel, rest => by
    rw [List.replicate_succ, List.cons_append]
    rw [show (n + 1 + fuel) = (n + fuel) + 1 from by omega]
    rw [findMarkersGo, matchMarker_cons_none 'z' _ (by decide)]
    exact findMarkersGo_repZ n fuel rest

theorem scriptTagsGo_nil : ∀ fuel, scriptTagsGo fuel [] = []
  | 0 => rfl
  | _ + 1 => by
    rw [scriptTagsGo]
    have h : splitAtSub ("<script".toList) [] = none := by decide
    rw [h]

/-! Concrete facts about the C4 page, each established without walking the
padding. -/

theorem cexMarker4_len : cexMarker4.length = 39 := by decide

theorem cexScript4_len : cexScript4.length = 1029 := by
  rw [show cexScript4 = List.replicate 990 'z' ++ cexMarker4 from rfl]
  rw [List.length_append, List.length_replicate, cexMarker4_len]

theorem cexHtml4_len : cexHtml4.length = 1046 := by
  rw [cexHtml4, List.length_append, List.length_append, cexScript4_len]
  rfl

theorem cexScript4_no_lt : ∀ c ∈ cexScript4, ¬ c = '<' := by
  intro c hc
  rw [show cexScript4 = List.replicate 990 'z' ++ cexMarker4 from rfl] at hc
  rcases List.mem_append.mp hc with h | h
  · rw [List.eq_of_mem_replicate h]
    decide
  · exact (by decide : ∀ c ∈ cexMarker4, ¬ c = '<') c h

theorem cexScript4_no_bs : ∀ c ∈ cexScript4, ¬ c = '\\' := by
  intro c hc
  rw [show cexScript4 = List.replicate 990 'z' ++ cexMarker4 from rfl] at hc
  rcases List.mem_append.mp hc with h | h
  · rw [List.eq_of_mem_replicate h]
    decide
  · exact (by decide : ∀ c ∈ cexMarker4, ¬ c = '\\') c h

theorem cexScript4_unescape : unescape cexScript4 = cexScript4 := by
  have h1 : pyReplace ['\\', '"'] ['"'] cexScript4 = cexScript4 := by
    rw [pyReplace]
    exact replaceSubGo_all_ne '\\' ['"'] ['"'] _ cexScript4 cexScript4_no_bs
  have h2 : pyReplace ['\\', '\\'] ['\\'] cexScript4 = cexScript4 := by
    rw [pyReplace]
    exact replaceSubGo_all_ne '\\' ['\\'] ['\\'] _ cexScript4 cexScript4_no_bs
  rw [unescape, h1, h2]

theorem cexScript4_markers :
    findMarkers cexScript4 = [("2025-01-01".toList, cexYs4)] := by
  rw [findMarkers, cexScript4_len]
  rw [show cexScript4 = List.replicate 990 'z' ++ cexMarker4 from rfl]
  rw [show (1029 : ℕ) = 990 + 39 from rfl]
  rw [findMarkersGo_repZ 990 39 cexMarker4]
  decide

theorem cexScript4_entries : scriptEntries cexScript4 = [cexEntry4] := by
  rw [scriptEntries, cexScript4_unescape, rawChartEntries, cexScript4_markers]
  decide

theorem cexHtml4_tags : scriptTags cexHtml4 = [cexScript4] := by
  rw [scriptTags, cexHtml4_len]
  rw [show (1046 : ℕ) = 1045 + 1 from rfl]
  rw [scriptTagsGo]
  have h1 : splitAtSub ("<script".toList) cexHtml4 =
      some ([], '>' :: (cexScript4 ++ ("</script>").toList)) := rfl
  rw [h1]
  dsimp only
  have h2 : splitAtSub ['>'] ('>' :: (cexScript4 ++ ("</script>").toList)) =
      some ([], cexScript4 ++ ("</script>").toList) := rfl
  rw [h2]
  dsimp only
  have h3 : splitAtSub ("</script>".toList)
      (cexScript4 ++ ("</script>").toList) = some (cexScript4, []) := by
    rw [show ("</script>".toList) = '<' :: ("/script>".toList) from rfl]
    rw [splitAtSub_all_ne '<' ("/script>".toList) cexScript4
      ('<' :: ("/script>".toList)) cexScript4_no_lt]
    rw [show splitAtSub ('<' :: ("/script>".toList))
      ('<' :: ("/script>".toList)) = some ([], []) from by decide]
    simp
  rw [h3]
  dsimp only
  rw [scriptTagsGo_nil]

theorem cexHtml4_eval :
    scrape_rankings_history cexHtml4 = [cexEntry4] := by
  rw [scrape_rankings_history, cexHtml4_tags]
  rw [List.foldl_cons, List.foldl_nil]
  rw [if_neg (by rw [cexScript4_len]; omega)]
  rw [cexScript4_entries]
  rfl

/-- C4 counterexample: the extracted entry of the concrete page has
`total = 3` but `sum(models) + others = 2`: the repeated key's first value
counts toward the total yet is overwritten in the models map. -/
theorem claim_C4_counterexample :
    ∃ e ∈ scrape_rankings_history cexHtml4,
      (e.models.map Prod.snd).sum + e.others ≠ e.total := by
  refine ⟨cexEntry4, ?_, ?_⟩
  · rw [cexHtml4_eval]
    exact List.mem_singleton.mpr rfl
  · decide

/-- Witness for C4 (amended) at the concrete extracted entry. -/
theorem claim_C4_witness :
    0 ≤ cexEntry4.others ∧
    (cexEntry4.models.map Prod.snd).sum + cexEntry4.others ≤ cexEntry4.total :=
  claim_C4 cexHtml4 cexEntry4
    (by rw [cexHtml4_eval]; exact List.mem_singleton.mpr rfl)

/-- The candidate list of the concrete C4 page: its single large script. -/
theorem cexHtml4_cands : chartCands cexHtml4 = [scriptEntries cexScript4] := by
  rw [chartCands, cexHtml4_tags]
  have h1 : ¬ cexScript4.length < 1000 := by rw [cexScript4_len]; omega
  rw [List.filter_cons, if_pos (decide_eq_true h1)]
  rw [List.filter_nil, List.map_cons, List.map_nil]

/-- C5: the scraper output is the insertion sort by week start of the
candidate list (one candidate per script of length at least 1000, each the
accepted entries of that script) folded through the length comparison;
whenever the candidate list splits as `l1 ++ e :: l2` with every earlier
candidate strictly shorter than `e`, `e` nonempty, and every later
candidate no longer than `e`, the fold selects `e` (ties favor the first);
a script none of whose parsed entries has a key containing a slash yields
zero accepted entries; and the output is sorted ascending by week start. -/
theorem claim_C5 (html : List Char) :
    scrape_rankings_history html =
      List.insertionSort weekLe (selectBest (chartCands html)) ∧
    (∀ l1 e l2, chartCands html = l1 ++ e :: l2 →
      (∀ x ∈ l1, x.length < e.length) → 0 < e.length →
      (∀ y ∈ l2, y.length ≤ e.length) →
      selectBest (chartCands html) = e) ∧
    (∀ s, (∀ dp ∈ rawChartEntries (unescape s), ∀ p ∈ dp.2,
      hasSlash p.1 = false) → scriptEntries s = []) ∧
    List.Sorted weekLe (scrape_rankings_history html) := by
  refine ⟨scrape_eq_selectBest html, ?_, ?_, ?_⟩
  · intro l1 e l2 hdec h1 h3 h2
    rw [show chartCands html = l1 ++ e :: l2 from hdec]
    exact selectBest_first_max l1 e l2 h1 h3 h2
  · exact fun s h => scriptEntries_eq_nil_of_no_slash s h
  · rw [scrape_eq_selectBest]
    exact List.sorted_insertionSort weekLe _

/-- Witness for C5 at the concrete C4 page (one large script) and the
concrete slash-free segment. -/
theorem claim_C5_witness :
    selectBest (chartCands cexHtml4) = [cexEntry4] ∧
    scriptEntries cexNoSlash5 = [] ∧
    List.Sorted weekLe (scrape_rankings_history cexHtml4) := by
  have h := claim_C5 cexHtml4
  refine ⟨?_, ?_, h.2.2.2⟩
  · have hd : chartCands cexHtml4 = [] ++ [cexEntry4] :: [] := by
      rw [cexHtml4_cands, cexScript4_entries]
      rfl
    exact h.2.1 [] [cexEntry4] [] hd (by simp) (by decide) (by simp)
  · exact h.2.2.1 cexNoSlash5 (by decide)

